import Mathlib

/-!
# Kubic control daemon: call interceptor and deployment reconciler

A shallow embedding of

* `cmd/kubicd/main.go` : `AuthInterceptor`,
* `pkg/deployment/deployFile.go` : `DeployFile`,
* `pkg/deployment/deployKustomize.go` : `setupMetalLB`, `setupHelloKubic`, `DeployKustomize`,
* `pkg/deployment/updateAll.go` : `UpdateAll`,
* `pkg/kubicctl/root.go` : `CreateConnection`, and the start of `fetchKubeconfig` in
  `pkg/kubicctl/fetchKubeconfig.go`.

Stateful code is written in state-passing style.  Every function returns, next to its Go
result, the ordered list of the calls it made to its collaborators.
-/

namespace Kubic

/-! ## The call interceptor (`cmd/kubicd/main.go`) -/

/-- The gRPC status codes (`google.golang.org/grpc/codes`). -/
inductive Code where
  | OK
  | Canceled
  | Unknown
  | InvalidArgument
  | DeadlineExceeded
  | NotFound
  | AlreadyExists
  | PermissionDenied
  | ResourceExhausted
  | FailedPrecondition
  | Aborted
  | OutOfRange
  | Unimplemented
  | Internal
  | Unavailable
  | DataLoss
  | Unauthenticated
  deriving DecidableEq, Repr

/-- A Go `error` as seen through `status.Code` and `Error()`. -/
structure GoError where
  code : Code
  message : String
  deriving DecidableEq, Repr

/-- The call `status.Error(c, msg)`. -/
def statusError (c : Code) (msg : String) : GoError := ⟨c, msg⟩

/-- The part of `x509.Certificate` the interceptor reads: `Subject.CommonName`. -/
structure Certificate where
  SubjectCommonName : String
  deriving DecidableEq, Repr

/-- The part of `tls.ConnectionState` the interceptor reads. -/
structure ConnectionState where
  VerifiedChains : List (List Certificate)
  deriving DecidableEq, Repr

/-- The dynamic type of `peer.Peer.AuthInfo`: either `credentials.TLSInfo` or anything else. -/
inductive AuthInfo where
  | TLSInfo (State : ConnectionState)
  | other (authType : String)
  deriving DecidableEq, Repr

/-- A `peer.Peer`; the interface field `AuthInfo` may be nil. -/
structure Peer where
  AuthInfo : Option AuthInfo
  deriving DecidableEq, Repr

/-- The part of `context.Context` the interceptor reads: the peer stored in it, if any. -/
structure Context where
  peer : Option Peer
  deriving DecidableEq, Repr

/-- The type `grpc.UnaryServerInfo`. -/
structure UnaryServerInfo where
  FullMethod : String
  deriving DecidableEq, Repr

/-- The package-level variables of `main.go` that hold loaded configuration: `rbac` is the
parsed `rbac.conf` (sections of key/value pairs), `rbac_err` the load error. -/
structure Globals where
  rbac : List (String × List (String × String))
  rbac_err : Option String
  deriving DecidableEq, Repr

/-- What one run of a `grpc.UnaryHandler` yields: the reply, the error, and the time it took
(in clock ticks). -/
structure HandlerOutcome (Resp : Type) where
  resp : Option Resp
  err : Option GoError
  elapsed : Nat

/-- An argument handed to a logging call. -/
inductive LogArg where
  | str (s : String)
  | duration (d : Nat)
  | err (e : Option GoError)
  | time (t : Nat)
  deriving DecidableEq, Repr

/-- A logrus entry: the clock reading when it was emitted (logrus stamps every entry), the
format string (empty for `log.Info`) and the arguments. -/
structure LogEntry where
  time : Nat
  format : String
  args : List LogArg
  deriving DecidableEq, Repr

/-- The format string of the audit line written by `AuthInterceptor`. -/
def auditFormat : String := "Function: %s, Caller: %s, Duration: %s, Error: %v"

/-- What the interceptor does that can be observed from outside, in order. -/
inductive CallEvent (Req : Type) where
  | log (entry : LogEntry)
  | handler (ctx : Context) (req : Req)
  deriving DecidableEq, Repr

/-- The result of the interceptor: the Go return pair and the observable events. -/
structure CallResult (Req Resp : Type) where
  resp : Option Resp
  err : Option GoError
  events : List (CallEvent Req)

/-- The function `AuthInterceptor` of `main.go`.  `now` is the clock reading on entry; the
clock advances only while the handler runs.  The two tests on `VerifiedChains` and the
indexing `VerifiedChains[0][0]` are rendered by one pattern match.  The globals are in scope
as in Go; the body does not read them. -/
def AuthInterceptor {Req Resp : Type} (_g : Globals) (now : Nat) (ctx : Context) (req : Req)
    (info : UnaryServerInfo) (handler : Context → Req → HandlerOutcome Resp) :
    CallResult Req Resp :=
  match ctx.peer with
  | none => ⟨none, some (statusError Code.Unauthenticated "no peer found"), []⟩
  | some p =>
    match p.AuthInfo with
    | some (AuthInfo.TLSInfo State) =>
      match State.VerifiedChains with
      | [] =>
        ⟨none, some (statusError Code.Unauthenticated "could not verify peer certificate"), []⟩
      | [] :: _ =>
        ⟨none, some (statusError Code.Unauthenticated "could not verify peer certificate"), []⟩
      | (leaf :: _) :: _ =>
        -- Check subject common name against configured username
        let e1 := CallEvent.log ⟨now, "", [LogArg.str leaf.SubjectCommonName]⟩
        let start := now
        -- Calls the handler
        let out := handler ctx req
        let finish := now + out.elapsed
        let e2 := CallEvent.log ⟨finish, auditFormat,
          [LogArg.str info.FullMethod, LogArg.str leaf.SubjectCommonName,
           LogArg.duration (finish - start), LogArg.err out.err]⟩
        ⟨out.resp, out.err, [e1, CallEvent.handler ctx req, e2]⟩
    | _ =>
      ⟨none, some (statusError Code.Unauthenticated "unexpected peer transport credentials"), []⟩

/-- An event is an audit record when it is a log entry in the audit format. -/
def CallEvent.isAudit {Req : Type} : CallEvent Req → Bool
  | CallEvent.log entry => entry.format == auditFormat
  | CallEvent.handler _ _ => false

/-- An event is a handler invocation. -/
def CallEvent.isHandler {Req : Type} : CallEvent Req → Bool
  | CallEvent.log _ => false
  | CallEvent.handler _ _ => true

/-- A log entry carries the clock reading `t` when it is stamped with it or has it among its
arguments. -/
def LogEntry.carriesTime (entry : LogEntry) (t : Nat) : Prop :=
  entry.time = t ∨ LogArg.time t ∈ entry.args

instance (entry : LogEntry) (t : Nat) : Decidable (entry.carriesTime t) := by
  unfold LogEntry.carriesTime; infer_instance

/-! ## The deployment state (`pkg/deployment`) -/

/-- An entry of the file system below which the daemon works. -/
inductive Node where
  | file (content : String)
  | dir
  | link (target : String)
  deriving DecidableEq, Repr

/-- The default section of a `gopkg.in/ini.v1` file: its keys in file order, with values. -/
structure Ini where
  entries : List (String × String)
  deriving DecidableEq, Repr

/-- The method `Section("").KeyStrings()`. -/
def Ini.KeyStrings (cfg : Ini) : List String := cfg.entries.map Prod.fst

/-- The expression `Section("").Key(key).String()`: the value, or the empty string for a key
the section does not have (the library then adds the key with an empty value to the table in
memory, which no later read of that table can tell from its absence). -/
def Ini.get (cfg : Ini) (key : String) : String := (cfg.entries.lookup key).getD ""

/-- The statement `Section("").Key(key).SetValue(value)`: overwrite in place or append. -/
def Ini.SetValue (cfg : Ini) (key value : String) : Ini :=
  if cfg.entries.any (fun e => e.1 == key) then
    ⟨cfg.entries.map (fun e => if e.1 == key then (e.1, value) else e)⟩
  else ⟨cfg.entries ++ [(key, value)]⟩

/-- What is on disk at the path of a fingerprint store: a table the ini library can parse,
or something it rejects. -/
inductive Stored where
  | table (cfg : Ini)
  | malformed (why : String)
  deriving DecidableEq, Repr

/-- The state the deployment code works on.  `fs` holds files, directories and links by path;
a path also exists when some entry lies below it.  The fingerprint stores are kept apart from
the other files, in parsed form.  `ext` counts the external commands run so far and stands
for everything outside the machine (the cluster). -/
structure World where
  fs : List (String × Node)
  stores : List (String × Stored)
  ext : Nat
  deriving DecidableEq, Repr

/-- The operating-system calls whose error the code checks. -/
inductive SysCall where
  | MkdirAll (path : String)
  | Symlink (oldname newname : String)
  | Create (path : String)
  | WriteString (path : String)
  | SaveTo (path : String)
  deriving DecidableEq, Repr

/-- The collaborators of the deployment code that are not part of the translated sources:
the hash function, the outcome of external commands, the failures of system calls, and the
apply procedures of the package that live in other files. -/
structure Env where
  digest : String → String
  command : String → List String → World → Bool × String
  fault : SysCall → Option String
  UpdateFile : String → World → (Bool × String) × World
  UpdateKustomize : String → World → (Bool × String) × World
  UpdateHelm : String → String → String → String → World → Option String × World
  checkHelmUpdate : String → String → String → String → String → World →
    (Bool × Option String) × World

/-- A call to a collaborator together with what it returned. -/
inductive Event where
  | ExecuteCmd (name : String) (args : List String) (success : Bool) (message : String)
  | Sha256sum_f (file : String) (hash : String) (err : Option String)
  | SaveTo (path : String) (cfg : Ini) (err : Option String)
  | UpdateFile (key : String) (success : Bool) (message : String)
  | UpdateKustomize (key : String) (success : Bool) (message : String)
  | UpdateHelm (chartName releaseName valuesPath ns : String) (err : Option String)
  | checkHelmUpdate (chartName releaseName valuesPath ns hash : String) (needsUpdate : Bool)
      (err : Option String)
  deriving DecidableEq, Repr

/-- The outcome of a deployment procedure: the Go return pair, the state left behind and the
collaborator calls made, in order. -/
structure Run where
  success : Bool
  message : String
  world : World
  trace : List Event
  deriving DecidableEq, Repr

/-- The constant `StateDir`. -/
def StateDir : String := "/var/lib/kubic-control"

/-- Path of the plain fingerprint store. -/
def yamlConf : String := "/var/lib/kubic-control/k8s-yaml.conf"

/-- Path of the overlay fingerprint store. -/
def kustomizeConf : String := "/var/lib/kubic-control/k8s-kustomize.conf"

/-- Path of the packaged fingerprint store. -/
def helmConf : String := "/var/lib/kubic-control/k8s-helm.conf"

/-- The arguments of the `kubectl apply -f` command line. -/
def applyArgs (file : String) : List String :=
  ["--kubeconfig=/etc/kubernetes/admin.conf", "apply", "-f", file]

/-- Whether `path` lies strictly below the directory `d`. -/
def below (d path : String) : Bool := (d ++ "/").toList.isPrefixOf path.toList

/-- Whether an entry is `path` itself or lies below it. -/
def within (path : String) (e : String × Node) : Bool := e.1 == path || below path e.1

/-- Whether something exists at `path` (`os.Stat` without error). -/
def World.pathExists (w : World) (path : String) : Bool := w.fs.any (within path)

/-- The regular file at `path`, if there is one. -/
def World.readFile (w : World) (path : String) : Option String :=
  match w.fs.lookup path with
  | some (Node.file content) => some content
  | _ => none

/-- Replace whatever is at `path` by `n`. -/
def World.put (w : World) (path : String) (n : Node) : World :=
  { w with fs := (path, n) :: w.fs.filter (fun e => e.1 != path) }

/-- The call `os.RemoveAll(path)`, whose error the code never looks at: the path and all
below it are gone. -/
def RemoveAll (path : String) (w : World) : World :=
  { w with fs := w.fs.filter (fun e => !within path e) }

/-- The call `os.MkdirAll(path, os.ModePerm)`. -/
def MkdirAll (env : Env) (path : String) (w : World) : Option String × World :=
  match env.fault (SysCall.MkdirAll path) with
  | some err => (some err, w)
  | none => (none, w.put path Node.dir)

/-- The call `os.Symlink(oldname, newname)`. -/
def Symlink (env : Env) (oldname newname : String) (w : World) : Option String × World :=
  match env.fault (SysCall.Symlink oldname newname) with
  | some err => (some err, w)
  | none => (none, w.put newname (Node.link oldname))

/-- The call `os.Create(path)`: an empty regular file. -/
def Create (env : Env) (path : String) (w : World) : Option String × World :=
  match env.fault (SysCall.Create path) with
  | some err => (some err, w)
  | none => (none, w.put path (Node.file ""))

/-- The call `f.WriteString(s)` on the file opened at `path`. -/
def WriteString (env : Env) (path s : String) (w : World) : Option String × World :=
  match env.fault (SysCall.WriteString path) with
  | some err => (some err, w)
  | none => (none, w.put path (Node.file ((w.readFile path).getD "" ++ s)))

/-- The function `ini.Load(path)`: a missing file is an error. -/
def Load (path : String) (w : World) : Except String Ini :=
  match w.stores.lookup path with
  | none => Except.error ("open " ++ path ++ ": no such file or directory")
  | some (Stored.malformed why) => Except.error why
  | some (Stored.table cfg) => Except.ok cfg

/-- The function `ini.LooseLoad(path)`: a missing file is an empty table. -/
def LooseLoad (path : String) (w : World) : Except String Ini :=
  match w.stores.lookup path with
  | none => Except.ok ⟨[]⟩
  | some (Stored.malformed why) => Except.error why
  | some (Stored.table cfg) => Except.ok cfg

/-- The method `cfg.SaveTo(path)`: the whole file is replaced by the table.  The table is
kept as it was written; a key that the ini text format cannot hold (one that starts with
`#` or `;` is read back as a comment line) is outside what this state describes. -/
def SaveTo (env : Env) (path : String) (cfg : Ini) (w : World) : Option String × World :=
  match env.fault (SysCall.SaveTo path) with
  | some err => (some err, w)
  | none =>
    (none, { w with stores := (path, Stored.table cfg) :: w.stores.filter (fun e => e.1 != path) })

/-- The table at the path of a store as a reader sees it: empty when nothing parseable is
there. -/
def World.store (w : World) (path : String) : Ini :=
  match w.stores.lookup path with
  | some (Stored.table cfg) => cfg
  | _ => ⟨[]⟩

/-- Modelled from the spec: `tools.ExecuteCmd` is not among the translated sources.  It runs
an external command and returns whether it succeeded and its output (or failure text).  The
command works on the cluster; what it answers is given by `env.command`, and the only trace
it leaves in the state is that one more command has run. -/
def ExecuteCmd (env : Env) (name : String) (args : List String) (w : World) :
    (Bool × String) × World :=
  (env.command name args w, { w with ext := w.ext + 1 })

/-- Modelled from the spec: `tools.Sha256sum_f` is not among the translated sources.  It is
the Content Hasher applied to a file: it reads the regular file named by its argument and
returns the digest of the bytes, or an empty digest and an error when no such file can be
read. -/
def Sha256sum_f (env : Env) (file : String) (w : World) : String × Option String :=
  match w.readFile file with
  | some content => (env.digest content, none)
  | none => ("", some ("open " ++ file ++ ": no such file or directory"))

/-- The function `strings.EqualFold`, by ASCII case folding (exact for the folded constants
the code compares with, which have no letter with a non-ASCII case variant). -/
def EqualFold (s t : String) : Bool := s.toList.map Char.toLower == t.toList.map Char.toLower

/-! ## `deployFile.go` -/

/-- The function `DeployFile`. -/
def DeployFile (env : Env) (yamlName : String) (w : World) : Run :=
  let r := ExecuteCmd env "kubectl" (applyArgs yamlName) w
  let t1 := [Event.ExecuteCmd "kubectl" (applyArgs yamlName) r.1.1 r.1.2]
  if r.1.1 != true then
    ⟨r.1.1, r.1.2, r.2, t1⟩
  else
    let h := Sha256sum_f env yamlName r.2
    let t2 := t1 ++ [Event.Sha256sum_f yamlName h.1 h.2]
    match LooseLoad yamlConf r.2 with
    | Except.error err => ⟨false, "Cannot load k8s-yaml.conf: " ++ err, r.2, t2⟩
    | Except.ok cfg =>
      let cfg1 := cfg.SetValue yamlName h.1
      let s := SaveTo env yamlConf cfg1 r.2
      let t3 := t2 ++ [Event.SaveTo yamlConf cfg1 s.1]
      match s.1 with
      | some err => ⟨false, "Cannot write k8s-yaml.conf: " ++ err, s.2, t3⟩
      | none => ⟨true, "", s.2, t3⟩

/-! ## `deployKustomize.go` -/

/-- The overlay workspace of a service: `StateDir + "/kustomize/" + service`. -/
def workspace (service : String) : String := StateDir ++ "/kustomize/" ++ service

/-- The function `setupMetalLB`. -/
def setupMetalLB (env : Env) (iprange : String) (w : World) : (Bool × String) × World :=
  let k := StateDir ++ "/kustomize/metallb/overlay/kustomization.yaml"
  match Create env k w with
  | (some err, w1) => ((false, err), w1)
  | (none, w1) =>
    match WriteString env k "resources:\n  - ../base\n  - layer2-config.yaml" w1 with
    | (some err, w2) => ((false, err), w2)
    | (none, w2) =>
      let l := StateDir ++ "/kustomize/metallb/overlay/layer2-config.yaml"
      match Create env l w2 with
      | (some err, w3) => ((false, err), w3)
      | (none, w3) =>
        match WriteString env l ("apiVersion: v1\nkind: ConfigMap\nmetadata:\n  namespace: metallb-system\n  name: config\ndata:\n  config: |\n    address-pools:\n    - name: my-ip-space\n      protocol: layer2\n      addresses:\n      - " ++ iprange) w3 with
        | (some err, w4) => ((false, err), w4)
        | (none, w4) => ((true, ""), w4)

/-- The function `setupHelloKubic`. -/
def setupHelloKubic (env : Env) (arg : String) (w : World) : (Bool × String) × World :=
  let k := StateDir ++ "/kustomize/hello-kubic/overlay/kustomization.yaml"
  match Create env k w with
  | (some err, w1) => ((false, err), w1)
  | (none, w1) =>
    if EqualFold arg "NodePort" then
      -- Use NodePort to make the service available
      match WriteString env k "resources:\n  - ../base\npatchesStrategicMerge:\n  - patch_NodePort.yaml" w1 with
      | (some err, w2) => ((false, err), w2)
      | (none, w2) =>
        let q := StateDir ++ "/kustomize/hello-kubic/overlay/patch_NodePort.yaml"
        match Create env q w2 with
        | (some err, w3) => ((false, err), w3)
        | (none, w3) =>
          match WriteString env q "apiVersion: v1\nkind: Service\nmetadata:\n  name: hello-kubic\nspec:\n  type: NodePort" w3 with
          | (some err, w4) => ((false, err), w4)
          | (none, w4) => ((true, ""), w4)
    else if EqualFold arg "LoadBalancer" then
      -- LoadBalancer without prefered IP
      match WriteString env k "resources:\n  - ../base" w1 with
      | (some err, w2) => ((false, err), w2)
      | (none, w2) => ((true, ""), w2)
    else
      -- LoadBalancer with prefered IP
      match WriteString env k "resources:\n  - ../base\npatchesStrategicMerge:\n  - patch_LoadBalancerIP.yaml" w1 with
      | (some err, w2) => ((false, err), w2)
      | (none, w2) =>
        let q := StateDir ++ "/kustomize/hello-kubic/overlay/patch_LoadBalancerIP.yaml"
        match Create env q w2 with
        | (some err, w3) => ((false, err), w3)
        | (none, w3) =>
          match WriteString env q ("apiVersion: v1\nkind: Service\nmetadata:\n  name: hello-kubic\nspec:\n  type: LoadBalancer\n  loadBalancerIP: " ++ arg) w3 with
          | (some err, w4) => ((false, err), w4)
          | (none, w4) => ((true, ""), w4)

/-- The `switch service` statement of `DeployKustomize`: the service-specific overlay, none
for a service without a case. -/
def setupOverlay (env : Env) (service argument : String) (w : World) : (Bool × String) × World :=
  if service = "metallb" then setupMetalLB env argument w
  else if service = "hello-kubic" then setupHelloKubic env argument w
  else ((true, ""), w)

/-- The arguments of the command that creates the memberlist secret of metallb. -/
def secretArgs : List String :=
  ["--kubeconfig=/etc/kubernetes/admin.conf", "create", "secret", "generic", "-n",
   "metallb-system", "memberlist", "--from-literal=secretkey=\"$(openssl rand -base64 128)\""]

/-- The last part of `DeployKustomize`, from `ini.LooseLoad` on: record the fingerprint. -/
def DeployKustomize.record (env : Env) (service result : String) (w : World)
    (t : List Event) : Run :=
  match LooseLoad kustomizeConf w with
  | Except.error err => ⟨false, "Cannot load k8s-kustomize.conf: " ++ err, w, t⟩
  | Except.ok cfg =>
    let cfg1 := cfg.SetValue service result
    let s := SaveTo env kustomizeConf cfg1 w
    let t1 := t ++ [Event.SaveTo kustomizeConf cfg1 s.1]
    match s.1 with
    | some err => ⟨false, "Cannot write k8s-kustomize.conf: " ++ err, s.2, t1⟩
    | none => ⟨true, "", s.2, t1⟩

/-- The part of `DeployKustomize` after a successful `kustomize build` whose output is
`built`: write the output, hash it, apply it, create the metallb secret, record. -/
def DeployKustomize.apply (env : Env) (service built : String) (yamlDidExist : Bool)
    (w : World) (t : List Event) : Run :=
  let yaml := workspace service ++ "/" ++ service ++ ".yaml"
  match Create env yaml w with
  | (some err, w1) => ⟨false, err, w1, t⟩
  | (none, w1) =>
    match WriteString env yaml built w1 with
    | (some err, w2) => ⟨false, err, w2, t⟩
    | (none, w2) =>
      let h := Sha256sum_f env yaml w2
      let a := ExecuteCmd env "kubectl" (applyArgs yaml) w2
      let t1 := t ++ [Event.Sha256sum_f yaml h.1 h.2,
        Event.ExecuteCmd "kubectl" (applyArgs yaml) a.1.1 a.1.2]
      if a.1.1 != true then
        ⟨false, a.1.2, a.2, t1⟩
      else if EqualFold service "metallb" && !yamlDidExist then
        let c := ExecuteCmd env "kubectl" secretArgs a.2
        let t2 := t1 ++ [Event.ExecuteCmd "kubectl" secretArgs c.1.1 c.1.2]
        if c.1.1 != true then
          ⟨false, c.1.2, c.2, t2⟩
        else DeployKustomize.record env service h.1 c.2 t2
      else DeployKustomize.record env service h.1 a.2 t1

/-- The function `DeployKustomize`. -/
def DeployKustomize (env : Env) (service argument : String) (w : World) : Run :=
  let yamlDidExist := w.pathExists (workspace service ++ "/" ++ service ++ ".yaml")
  let w0 := RemoveAll (workspace service) w
  match MkdirAll env (workspace service ++ "/overlay") w0 with
  | (some err, w1) =>
    ⟨false, "Cannot create " ++ StateDir ++ "/kustomize/" ++ service ++ "/overlay: " ++ err,
      w1, []⟩
  | (none, w1) =>
    match Symlink env ("/usr/share/k8s-yaml/" ++ service) (workspace service ++ "/base") w1 with
    | (some err, w2) =>
      ⟨false, "Cannot link " ++ service ++ " base directory: " ++ err, w2, []⟩
    | (none, w2) =>
      let s := setupOverlay env service argument w2
      if s.1.1 != true then
        ⟨false, s.1.2, RemoveAll (workspace service) s.2, []⟩
      else
        let b := ExecuteCmd env "kustomize" ["build", workspace service ++ "/overlay"] s.2
        let t := [Event.ExecuteCmd "kustomize" ["build", workspace service ++ "/overlay"]
          b.1.1 b.1.2]
        if b.1.1 != true then
          ⟨false, b.1.2, RemoveAll (workspace service) b.2, t⟩
        else DeployKustomize.apply env service b.1.2 yamlDidExist b.2 t

/-! ## `updateAll.go` -/

/-- The state of a pass through one of the three loops of `UpdateAll`: the pair returned
early, if the loop returned, the state and the calls made. -/
structure Pass where
  ret : Option (Bool × String)
  world : World
  trace : List Event
  deriving DecidableEq, Repr

/-- Put the calls `evs` in front of those of a pass. -/
def Pass.after (evs : List Event) (p : Pass) : Pass := { p with trace := evs ++ p.trace }

/-- The first loop of `UpdateAll`, over the keys of `k8s-yaml.conf`. -/
def UpdateAll.plain (env : Env) (forced : Bool) (cfg : Ini) : List String → World → Pass
  | [], w => ⟨none, w, []⟩
  | key :: keys, w =>
    if forced then
      -- force, so always update even if not changed
      let r := env.UpdateFile key w
      let ev := Event.UpdateFile key r.1.1 r.1.2
      if r.1.1 != true then ⟨some r.1, r.2, [ev]⟩
      else (UpdateAll.plain env forced cfg keys r.2).after [ev]
    else
      let value := cfg.get key
      let h := Sha256sum_f env key w
      let ev0 := Event.Sha256sum_f key h.1 h.2
      if h.1 != value then
        let r := env.UpdateFile key w
        let ev := Event.UpdateFile key r.1.1 r.1.2
        if r.1.1 != true then ⟨some r.1, r.2, [ev0, ev]⟩
        else (UpdateAll.plain env forced cfg keys r.2).after [ev0, ev]
      else (UpdateAll.plain env forced cfg keys w).after [ev0]

/-- The second loop of `UpdateAll`, over the keys of `k8s-kustomize.conf`. -/
def UpdateAll.kustomize (env : Env) (forced : Bool) (cfg : Ini) : List String → World → Pass
  | [], w => ⟨none, w, []⟩
  | key :: keys, w =>
    if forced then
      -- force, so always update even if not changed
      let r := env.UpdateKustomize key w
      let ev := Event.UpdateKustomize key r.1.1 r.1.2
      if r.1.1 != true then ⟨some r.1, r.2, [ev]⟩
      else (UpdateAll.kustomize env forced cfg keys r.2).after [ev]
    else
      let args := ["build", StateDir ++ "/kustomize/" ++ key ++ "/overlay"]
      let b := ExecuteCmd env "kustomize" args w
      let evb := Event.ExecuteCmd "kustomize" args b.1.1 b.1.2
      if b.1.1 != true then ⟨some b.1, b.2, [evb]⟩
      else
        let value := cfg.get key
        let h := Sha256sum_f env b.1.2 b.2
        let ev0 := Event.Sha256sum_f b.1.2 h.1 h.2
        if h.1 != value then
          let r := env.UpdateKustomize key b.2
          let ev := Event.UpdateKustomize key r.1.1 r.1.2
          if r.1.1 != true then ⟨some r.1, r.2, [evb, ev0, ev]⟩
          else (UpdateAll.kustomize env forced cfg keys r.2).after [evb, ev0, ev]
        else (UpdateAll.kustomize env forced cfg keys b.2).after [evb, ev0]

/-- The third loop of `UpdateAll`, over the keys of `k8s-helm.conf`. -/
def UpdateAll.helm (env : Env) (forced : Bool) (cfg : Ini) : List String → World → Pass
  | [], w => ⟨none, w, []⟩
  | chartName :: keys, w =>
    let releaseName := cfg.get (chartName ++ ".releaseName")
    let valuesPath := cfg.get (chartName ++ ".valuesPath")
    let ns := cfg.get (chartName ++ ".namespace")
    if forced then
      -- force, so always update even if not changed
      let r := env.UpdateHelm chartName releaseName valuesPath ns w
      let ev := Event.UpdateHelm chartName releaseName valuesPath ns r.1
      match r.1 with
      | some err => ⟨some (false, err), r.2, [ev]⟩
      | none => (UpdateAll.helm env forced cfg keys r.2).after [ev]
    else
      let hash := cfg.get chartName
      let c := env.checkHelmUpdate chartName releaseName valuesPath ns hash w
      let evc := Event.checkHelmUpdate chartName releaseName valuesPath ns hash c.1.1 c.1.2
      match c.1.2 with
      | some err => ⟨some (false, err), c.2, [evc]⟩
      | none =>
        if c.1.1 then
          let r := env.UpdateHelm chartName releaseName valuesPath ns c.2
          let ev := Event.UpdateHelm chartName releaseName valuesPath ns r.1
          match r.1 with
          | some err => ⟨some (false, err), r.2, [evc, ev]⟩
          | none => (UpdateAll.helm env forced cfg keys r.2).after [evc, ev]
        else (UpdateAll.helm env forced cfg keys c.2).after [evc]

/-- The function `UpdateAll`. -/
def UpdateAll (env : Env) (forced : Bool) (w : World) : Run :=
  match Load yamlConf w with
  | Except.error err => ⟨false, "Cannot load k8s-yaml.conf: " ++ err, w, []⟩
  | Except.ok cfg =>
    let p := UpdateAll.plain env forced cfg cfg.KeyStrings w
    match p.ret with
    | some r => ⟨r.1, r.2, p.world, p.trace⟩
    | none =>
      -- Update kustomize installed services
      match Load kustomizeConf p.world with
      | Except.error err =>
        ⟨false, "Cannot load k8s-kustomize.conf: " ++ err, p.world, p.trace⟩
      | Except.ok cfgK =>
        let k := UpdateAll.kustomize env forced cfgK cfgK.KeyStrings p.world
        match k.ret with
        | some r => ⟨r.1, r.2, k.world, p.trace ++ k.trace⟩
        | none =>
          -- Update helm installed services
          match Load helmConf k.world with
          | Except.error err =>
            ⟨false, "Cannot load k8s-helm.conf: " ++ err, k.world, p.trace ++ k.trace⟩
          | Except.ok cfgH =>
            let h := UpdateAll.helm env forced cfgH cfgH.KeyStrings k.world
            match h.ret with
            | some r => ⟨r.1, r.2, h.world, p.trace ++ k.trace ++ h.trace⟩
            | none => ⟨true, "", h.world, p.trace ++ k.trace ++ h.trace⟩

/-! ## Reading traces -/

/-- The three apply procedures a pass can invoke, with their arguments. -/
inductive Applied where
  | UpdateFile (key : String)
  | UpdateKustomize (key : String)
  | UpdateHelm (chartName releaseName valuesPath ns : String)
  deriving DecidableEq, Repr

/-- The apply invocation an event stands for, if it is one. -/
def Event.applied : Event → Option Applied
  | Event.UpdateFile key _ _ => some (Applied.UpdateFile key)
  | Event.UpdateKustomize key _ _ => some (Applied.UpdateKustomize key)
  | Event.UpdateHelm c r v n _ => some (Applied.UpdateHelm c r v n)
  | _ => none

/-- Whether an event is an invocation of `UpdateFile` for `key`. -/
def Event.isUpdateFile (key : String) : Event → Bool
  | Event.UpdateFile k _ _ => k == key
  | _ => false

/-- The message of a failed apply: `UpdateFile` or `UpdateKustomize` returning
`success = false`, or `UpdateHelm` returning an error; `none` for every other event. -/
def Event.failure : Event → Option String
  | Event.UpdateFile _ false message => some message
  | Event.UpdateKustomize _ false message => some message
  | Event.UpdateHelm _ _ _ _ (some err) => some err
  | _ => none

/-- The state a collaborator call leaves behind when made in the state `w`. -/
def Event.effect (env : Env) : Event → World → World
  | Event.ExecuteCmd name args _ _, w => (Kubic.ExecuteCmd env name args w).2
  | Event.Sha256sum_f _ _ _, w => w
  | Event.SaveTo path cfg _, w => (Kubic.SaveTo env path cfg w).2
  | Event.UpdateFile key _ _, w => (env.UpdateFile key w).2
  | Event.UpdateKustomize key _ _, w => (env.UpdateKustomize key w).2
  | Event.UpdateHelm c r v n _, w => (env.UpdateHelm c r v n w).2
  | Event.checkHelmUpdate c r v n h _ _, w => (env.checkHelmUpdate c r v n h w).2

/-- The state reached from `w` by making the calls of a trace one after the other and doing
nothing else. -/
def replay (env : Env) (t : List Event) (w : World) : World :=
  t.foldl (fun s e => e.effect env s) w

/-- A trace with its return value is fail-fast when a failed apply in it is its last call
and the value returned is `(false, msg)` with the message of that failure. -/
def FailFast (t : List Event) (ret : Option (Bool × String)) : Prop :=
  ∀ pre e post msg, t = pre ++ e :: post → e.failure = some msg →
    post = [] ∧ ret = some (false, msg)

/-- The message of a failed fingerprint recomputation whose error `UpdateAll` looks at: an
external command (the overlay build) returning `success = false`, or `checkHelmUpdate`
returning an error; `none` for every other event. -/
def Event.recomputeFailure : Event → Option String
  | Event.ExecuteCmd _ _ false message => some message
  | Event.checkHelmUpdate _ _ _ _ _ _ (some err) => some err
  | _ => none

/-- A trace with its return value aborts on the events singled out by `f` when such an event
in it is its last call and the value returned is `(false, msg)` with the message given by
`f`. -/
def AbortsOn (f : Event → Option String) (t : List Event) (ret : Option (Bool × String)) :
    Prop :=
  ∀ pre e post msg, t = pre ++ e :: post → f e = some msg →
    post = [] ∧ ret = some (false, msg)

/-! ## The client connection (`pkg/kubicctl/root.go`, `fetchKubeconfig.go`) -/

/-- The package-level variables of `root.go` that `CreateConnection` reads. -/
structure ClientVars where
  servername : String
  port : String
  crtFile : String
  keyFile : String
  caFile : String
  deriving DecidableEq, Repr

/-- A loaded `tls.Certificate`, named by the files it came from. -/
structure KeyPair where
  crtFile : String
  keyFile : String
  deriving DecidableEq, Repr

/-- The `tls.Config` handed to `credentials.NewTLS`; `RootCAs` is the pool, given by the PEM
text appended to it. -/
structure TLSConfig where
  ServerName : String
  Certificates : List KeyPair
  RootCAs : String
  deriving DecidableEq, Repr

/-- A non-nil `*grpc.ClientConn`. -/
structure ClientConn where
  target : String
  creds : TLSConfig
  deriving DecidableEq, Repr

/-- The library calls made by `CreateConnection`.  `LoadX509KeyPair` and `ReadFile` return
a value and an error as in Go; `AppendCertsFromPEM` tells whether the PEM text held a
certificate; `Dial` returns either a connection or an error. -/
structure ClientEnv where
  LoadX509KeyPair : String → String → KeyPair × Option String
  ReadFile : String → String × Option String
  AppendCertsFromPEM : String → Bool
  Dial : String → TLSConfig → Except String ClientConn

/-- What `CreateConnection` returns, with the lines it logs. -/
structure ConnResult where
  conn : Option ClientConn
  err : Option String
  log : List String
  deriving DecidableEq, Repr

/-- The function `CreateConnection` of `root.go`.  The Go variable `err` is assigned by
`tls.LoadX509KeyPair` and again by `ioutil.ReadFile`; the return after a failed
`AppendCertsFromPEM` returns that variable. -/
def CreateConnection (v : ClientVars) (env : ClientEnv) : ConnResult :=
  -- Load the certificates from disk
  let k := env.LoadX509KeyPair v.crtFile v.keyFile
  match k.2 with
  | some e => ⟨none, some e, ["could not load client key pair: " ++ e]⟩
  | none =>
    -- Create a certificate pool from the certificate authority
    let c := env.ReadFile v.caFile
    match c.2 with
    | some e => ⟨none, some e, ["could not read ca certificate: " ++ e]⟩
    | none =>
      -- Append the client certificates from the CA
      if env.AppendCertsFromPEM c.1 = false then
        ⟨none, c.2, ["failed to append ca pki"]⟩
      else
        -- Create the TLS credentials for transport
        let creds : TLSConfig := ⟨"KubicD", [k.1], c.1⟩
        match env.Dial (v.servername ++ ":" ++ v.port) creds with
        | Except.error e => ⟨none, some e, ["did not connect: " ++ e]⟩
        | Except.ok conn => ⟨some conn, none, []⟩

/-- How `fetchKubeconfig` starts: it returns at once when `CreateConnection` gave an error,
and otherwise goes on with the connection it got (`defer conn.Close()`,
`pb.NewKubeadmClient(conn)`), be it nil or not. -/
inductive FetchStart where
  | returned
  | proceeds (conn : Option ClientConn)
  deriving DecidableEq, Repr

/-- The first statements of `fetchKubeconfig`, up to `defer conn.Close()`. -/
def fetchKubeconfig.start (v : ClientVars) (env : ClientEnv) : FetchStart :=
  let r := CreateConnection v env
  match r.err with
  | some _ => FetchStart.returned
  | none => FetchStart.proceeds r.conn

/-! ## Concrete inputs used in the examples -/

/-- A loaded policy file with one rule: only `admin` may call `RemoveNode`. -/
def rbacAdminOnly : Globals :=
  ⟨[("/api.Kubeadm/RemoveNode", [("admin", "true")])], none⟩

/-- A context without a peer. -/
def ctxNoPeer : Context := ⟨none⟩

/-- A context whose peer presented a verified certificate with common name `mallory`. -/
def ctxMallory : Context :=
  ⟨some ⟨some (AuthInfo.TLSInfo ⟨[[⟨"mallory"⟩, ⟨"Kubic-Control-CA"⟩]]⟩)⟩⟩

/-- The method descriptor of the `RemoveNode` call. -/
def infoRemoveNode : UnaryServerInfo := ⟨"/api.Kubeadm/RemoveNode"⟩

/-- A handler that succeeds with the reply `done` after 250 clock ticks. -/
def handlerDone : Context → String → HandlerOutcome String :=
  fun _ _ => ⟨some "done", none, 250⟩

/-- A stand-in hash for the examples: distinct contents get distinct non-empty digests. -/
def toyDigest (content : String) : String := "sha256:" ++ content

/-- An empty machine: no files, no stores. -/
def worldEmpty : World := ⟨[], [], 0⟩

/-- A machine on which all three stores exist and are empty. -/
def worldFresh : World :=
  ⟨[], [(yamlConf, Stored.table ⟨[]⟩), (kustomizeConf, Stored.table ⟨[]⟩),
    (helmConf, Stored.table ⟨[]⟩)], 0⟩

/-- Collaborators that all succeed: `kustomize build` prints `kind: Service`, every other
command prints `ok`, no system call fails, and the apply procedures report success. -/
def envOk : Env where
  digest := toyDigest
  command := fun name _ _ => if name = "kustomize" then (true, "kind: Service") else (true, "ok")
  fault := fun _ => none
  UpdateFile := fun _ w => ((true, ""), { w with ext := w.ext + 1 })
  UpdateKustomize := fun _ w => ((true, ""), { w with ext := w.ext + 1 })
  UpdateHelm := fun _ _ _ _ w => (none, { w with ext := w.ext + 1 })
  checkHelmUpdate := fun _ _ _ _ _ w => ((false, none), w)

/-- Collaborators as in `envOk`, except that the cluster cannot be reached: every command
other than `kustomize` fails with `connection refused`. -/
def envNoCluster : Env :=
  { envOk with
    command := fun name _ _ =>
      if name = "kustomize" then (true, "kind: Service") else (false, "connection refused") }

/-- Collaborators as in `envOk`, except that `kustomize build` fails. -/
def envNoBuild : Env :=
  { envOk with
    command := fun name _ _ =>
      if name = "kustomize" then (false, "no such overlay") else (true, "ok") }

/-- A machine that tracks two plain files, one overlay and one packaged release.  The file
`a.yaml` is as recorded; `b.yaml` has changed since its fingerprint was stored. -/
def worldTracked : World :=
  ⟨[("a.yaml", Node.file "replicas: 1"), ("b.yaml", Node.file "replicas: 2")],
   [(yamlConf, Stored.table ⟨[("a.yaml", "sha256:replicas: 1"), ("b.yaml", "sha256:replicas: 1")]⟩),
    (kustomizeConf, Stored.table ⟨[("hello-kubic", "sha256:kind: Service")]⟩),
    (helmConf, Stored.table ⟨[("nginx", "sha256:v1"), ("nginx.releaseName", "web"),
      ("nginx.valuesPath", "/srv/values.yaml"), ("nginx.namespace", "default")]⟩)], 0⟩

/-- Collaborators as in `envOk`, except that `UpdateKustomize` fails. -/
def envOverlayFails : Env :=
  { envOk with UpdateKustomize := fun _ w => ((false, "apply failed"), w) }

/-- The hash of the scenario: the content `replicas: 1` hashes to `abc123`, any other
content to `def456`. -/
def scenarioDigest (content : String) : String :=
  if content = "replicas: 1" then "abc123" else "def456"

/-- Collaborators as in `envOk` with the hash of the scenario. -/
def envScenario : Env := { envOk with digest := scenarioDigest }

/-- The store of the scenario: `app.yaml` recorded with fingerprint `abc123`. -/
def storeApp : Ini := ⟨[("app.yaml", "abc123")]⟩

/-- The machine of the scenario with `app.yaml` unchanged (it hashes to `abc123`). -/
def worldSame : World :=
  ⟨[("app.yaml", Node.file "replicas: 1")],
   [(yamlConf, Stored.table storeApp), (kustomizeConf, Stored.table ⟨[]⟩),
    (helmConf, Stored.table ⟨[]⟩)], 0⟩

/-- The machine of the scenario with `app.yaml` changed (it hashes to `def456`). -/
def worldChanged : World :=
  ⟨[("app.yaml", Node.file "replicas: 3")],
   [(yamlConf, Stored.table storeApp), (kustomizeConf, Stored.table ⟨[]⟩),
    (helmConf, Stored.table ⟨[]⟩)], 0⟩

/-- A machine whose plain store tracks `gone.yaml`, a file that is no longer there. -/
def worldGone : World :=
  ⟨[], [(yamlConf, Stored.table ⟨[("gone.yaml", "sha256:replicas: 1")]⟩),
    (kustomizeConf, Stored.table ⟨[]⟩), (helmConf, Stored.table ⟨[]⟩)], 0⟩

/-- Collaborators as in `envOk`, except that the release status query fails. -/
def envNoHelm : Env :=
  { envOk with checkHelmUpdate := fun _ _ _ _ _ w => ((false, some "release not found"), w) }

/-- The default client variables of `root.go`. -/
def clientVars : ClientVars :=
  ⟨"localhost", "7148", "~/.config/kubicctl/user.crt", "~/.config/kubicctl/user.key",
    "~/.config/kubicctl/Kubic-Control-CA.crt"⟩

/-- A client machine whose key pair loads and whose CA file can be read but holds no PEM
certificate; dialing would succeed. -/
def clientEnvBadPEM : ClientEnv where
  LoadX509KeyPair := fun crt key => (⟨crt, key⟩, none)
  ReadFile := fun _ => ("not a certificate", none)
  AppendCertsFromPEM := fun _ => false
  Dial := fun target creds => Except.ok ⟨target, creds⟩

/-- C1: when the context has no peer, or the auth info of the peer is not TLS credentials,
or the TLS state has no verified chain or an empty first verified chain, `AuthInterceptor`
returns a nil response and an error of code `Unauthenticated`, and the handler is not
invoked. -/
theorem AuthInterceptor_unauthenticated {Req Resp : Type} (g : Globals) (now : Nat)
    (ctx : Context) (req : Req) (info : UnaryServerInfo)
    (handler : Context → Req → HandlerOutcome Resp)
    (h : ctx.peer = none ∨
      (∃ p, ctx.peer = some p ∧ ∀ st, p.AuthInfo ≠ some (AuthInfo.TLSInfo st)) ∨
      (∃ st, ctx.peer = some ⟨some (AuthInfo.TLSInfo st)⟩ ∧
        (st.VerifiedChains = [] ∨ ∃ rest, st.VerifiedChains = [] :: rest))) :
    (AuthInterceptor g now ctx req info handler).resp = none ∧
    (∃ msg, (AuthInterceptor g now ctx req info handler).err =
      some (statusError Code.Unauthenticated msg)) ∧
    ∀ c q, CallEvent.handler c q ∉ (AuthInterceptor g now ctx req info handler).events := by
  rcases h with h | ⟨p, hp, hna⟩ | ⟨st, hp, hst⟩
  · simp [AuthInterceptor, h]
  · rcases p with ⟨ai⟩
    rcases ai with _ | ai
    · simp [AuthInterceptor, hp]
    · cases ai with
      | TLSInfo st => exact absurd rfl (hna st)
      | other t => simp [AuthInterceptor, hp]
  · rcases hst with hst | ⟨rest, hst⟩
    · simp [AuthInterceptor, hp, hst]
    · simp [AuthInterceptor, hp, hst]

/-- Witness for C1: a call without a peer. -/
theorem AuthInterceptor_unauthenticated_witness :
    (AuthInterceptor rbacAdminOnly 1000 ctxNoPeer "req" infoRemoveNode handlerDone).resp = none ∧
    (∃ msg, (AuthInterceptor rbacAdminOnly 1000 ctxNoPeer "req" infoRemoveNode handlerDone).err =
      some (statusError Code.Unauthenticated msg)) ∧
    ∀ c q, CallEvent.handler c q ∉
      (AuthInterceptor rbacAdminOnly 1000 ctxNoPeer "req" infoRemoveNode handlerDone).events :=
  AuthInterceptor_unauthenticated rbacAdminOnly 1000 ctxNoPeer "req" infoRemoveNode handlerDone
    (Or.inl rfl)

/-- C2: at the call of `RemoveNode` by the verified caller `mallory`, whatever policy is
loaded in `rbac`, `AuthInterceptor` invokes the handler and returns its reply with no error,
so it does not return `PermissionDenied`. -/
theorem AuthInterceptor_never_consults_rbac (g : Globals) :
    (AuthInterceptor g 1000 ctxMallory "node1" infoRemoveNode handlerDone).resp = some "done" ∧
    (AuthInterceptor g 1000 ctxMallory "node1" infoRemoveNode handlerDone).err = none ∧
    CallEvent.handler ctxMallory "node1" ∈
      (AuthInterceptor g 1000 ctxMallory "node1" infoRemoveNode handlerDone).events := by
  simp [AuthInterceptor, ctxMallory, handlerDone]

/-- C3, as stated, fails: a call without a peer leaves no audit record at all, and the audit
record of a verified call that started at clock reading 1000 and took 250 ticks carries the
reading 1250, not 1000, in its stamp and no clock reading among its arguments. -/
theorem AuthInterceptor_audit_counterexample :
    ((AuthInterceptor rbacAdminOnly 1000 ctxNoPeer "node1" infoRemoveNode
      handlerDone).events.filter CallEvent.isAudit).length = 0 ∧
    (AuthInterceptor rbacAdminOnly 1000 ctxMallory "node1" infoRemoveNode
      handlerDone).events.filter CallEvent.isAudit =
      [CallEvent.log ⟨1250, auditFormat, [LogArg.str "/api.Kubeadm/RemoveNode",
        LogArg.str "mallory", LogArg.duration 250, LogArg.err none]⟩] ∧
    ¬ LogEntry.carriesTime ⟨1250, auditFormat, [LogArg.str "/api.Kubeadm/RemoveNode",
        LogArg.str "mallory", LogArg.duration 250, LogArg.err none]⟩ 1000 := by
  refine ⟨by decide, by decide, by decide⟩

/-- C3, amended: for every call whose peer has TLS credentials with a non-empty first
verified chain, whatever the handler returns, the events of `AuthInterceptor` end with the
handler invocation followed by one audit record, no earlier event is an audit record or a
handler invocation, and the record holds the operation name, the common name of the leaf
certificate, the time the handler took and the error the handler returned. -/
theorem AuthInterceptor_audit_after_handler {Req Resp : Type} (g : Globals) (now : Nat)
    (ctx : Context) (req : Req) (info : UnaryServerInfo)
    (handler : Context → Req → HandlerOutcome Resp)
    (leaf : Certificate) (chain : List Certificate) (chains : List (List Certificate))
    (h : ctx.peer = some ⟨some (AuthInfo.TLSInfo ⟨(leaf :: chain) :: chains⟩)⟩) :
    ∃ pre, (AuthInterceptor g now ctx req info handler).events =
        pre ++ [CallEvent.handler ctx req,
          CallEvent.log ⟨now + (handler ctx req).elapsed, auditFormat,
            [LogArg.str info.FullMethod, LogArg.str leaf.SubjectCommonName,
             LogArg.duration (handler ctx req).elapsed, LogArg.err (handler ctx req).err]⟩] ∧
      (∀ e ∈ pre, e.isAudit = false ∧ e.isHandler = false) ∧
      ((AuthInterceptor g now ctx req info handler).events.filter CallEvent.isAudit).length = 1 ∧
      (AuthInterceptor g now ctx req info handler).resp = (handler ctx req).resp ∧
      (AuthInterceptor g now ctx req info handler).err = (handler ctx req).err := by
  refine ⟨[CallEvent.log ⟨now, "", [LogArg.str leaf.SubjectCommonName]⟩], ?_⟩
  simp [AuthInterceptor, h, CallEvent.isAudit, CallEvent.isHandler, auditFormat]

/-! ## Theorems: `DeployFile` and `DeployKustomize` -/

theorem stores_MkdirAll {env : Env} {path : String} {w : World} {r : Option String × World}
    (h : MkdirAll env path w = r) : r.2.stores = w.stores := by
  subst h; unfold MkdirAll; split <;> rfl

theorem stores_Symlink {env : Env} {o n : String} {w : World} {r : Option String × World}
    (h : Symlink env o n w = r) : r.2.stores = w.stores := by
  subst h; unfold Symlink; split <;> rfl

theorem stores_Create {env : Env} {path : String} {w : World} {r : Option String × World}
    (h : Create env path w = r) : r.2.stores = w.stores := by
  subst h; unfold Create; split <;> rfl

theorem stores_WriteString {env : Env} {path s : String} {w : World}
    {r : Option String × World} (h : WriteString env path s w = r) :
    r.2.stores = w.stores := by
  subst h; unfold WriteString; split <;> rfl

theorem stores_setupMetalLB (env : Env) (iprange : String) (w : World) :
    (setupMetalLB env iprange w).2.stores = w.stores := by
  unfold setupMetalLB
  simp only []
  split
  · next h => exact stores_Create h
  · next w1 h =>
    have h1 : w1.stores = w.stores := stores_Create h
    split
    · next h2 => exact (stores_WriteString h2).trans h1
    · next w2 h2 =>
      have h2 : w2.stores = w.stores := (stores_WriteString h2).trans h1
      split
      · next h3 => exact (stores_Create h3).trans h2
      · next w3 h3 =>
        have h3 : w3.stores = w.stores := (stores_Create h3).trans h2
        split
        · next h4 => exact (stores_WriteString h4).trans h3
        · next h4 => exact (stores_WriteString h4).trans h3

theorem stores_setupHelloKubic (env : Env) (arg : String) (w : World) :
    (setupHelloKubic env arg w).2.stores = w.stores := by
  unfold setupHelloKubic
  simp only []
  split
  · next h => exact stores_Create h
  · next w1 h =>
    have h1 : w1.stores = w.stores := stores_Create h
    split
    · split
      · next h2 => exact (stores_WriteString h2).trans h1
      · next w2 h2 =>
        have h2 : w2.stores = w.stores := (stores_WriteString h2).trans h1
        split
        · next h3 => exact (stores_Create h3).trans h2
        · next w3 h3 =>
          have h3 : w3.stores = w.stores := (stores_Create h3).trans h2
          split
          · next h4 => exact (stores_WriteString h4).trans h3
          · next h4 => exact (stores_WriteString h4).trans h3
    · split
      · split
        · next h2 => exact (stores_WriteString h2).trans h1
        · next h2 => exact (stores_WriteString h2).trans h1
      · split
        · next h2 => exact (stores_WriteString h2).trans h1
        · next w2 h2 =>
          have h2 : w2.stores = w.stores := (stores_WriteString h2).trans h1
          split
          · next h3 => exact (stores_Create h3).trans h2
          · next w3 h3 =>
            have h3 : w3.stores = w.stores := (stores_Create h3).trans h2
            split
            · next h4 => exact (stores_WriteString h4).trans h3
            · next h4 => exact (stores_WriteString h4).trans h3

theorem stores_setupOverlay (env : Env) (service argument : String) (w : World) :
    (setupOverlay env service argument w).2.stores = w.stores := by
  unfold setupOverlay
  split
  · exact stores_setupMetalLB env argument w
  · split
    · exact stores_setupHelloKubic env argument w
    · rfl

theorem record_trace_ExecuteCmd (env : Env) (service result : String) (w : World)
    (t : List Event) (name : String) (args : List String) (ok : Bool) (msg : String)
    (h : Event.ExecuteCmd name args ok msg ∈ (DeployKustomize.record env service result w t).trace) :
    Event.ExecuteCmd name args ok msg ∈ t := by
  unfold DeployKustomize.record at h
  split at h
  · exact h
  · simp only [] at h
    split at h <;> simpa using h

theorem apply_failure (env : Env) (service built : String) (y : Bool) (w : World)
    (t : List Event) (msg : String)
    (ht : Event.ExecuteCmd "kubectl"
      (applyArgs (workspace service ++ "/" ++ service ++ ".yaml")) false msg ∉ t)
    (hs : ∀ p c e, Event.SaveTo p c e ∉ t)
    (h : Event.ExecuteCmd "kubectl"
      (applyArgs (workspace service ++ "/" ++ service ++ ".yaml")) false msg ∈
        (DeployKustomize.apply env service built y w t).trace) :
    (DeployKustomize.apply env service built y w t).success = false ∧
    (DeployKustomize.apply env service built y w t).message = msg ∧
    (DeployKustomize.apply env service built y w t).world.stores = w.stores ∧
    ∀ p c e, Event.SaveTo p c e ∉ (DeployKustomize.apply env service built y w t).trace := by
  rcases hC : Create env (workspace service ++ "/" ++ service ++ ".yaml") w with ⟨e1, w1⟩
  have h1 : w1.stores = w.stores := stores_Create hC
  cases e1 with
  | some err => simp [DeployKustomize.apply, hC] at h; exact absurd h ht
  | none =>
    rcases hW : WriteString env (workspace service ++ "/" ++ service ++ ".yaml") built w1
      with ⟨e2, w2⟩
    have h2 : w2.stores = w.stores := (stores_WriteString hW).trans h1
    cases e2 with
    | some err => simp [DeployKustomize.apply, hC, hW] at h; exact absurd h ht
    | none =>
      rcases ha : env.command "kubectl"
        (applyArgs (workspace service ++ "/" ++ service ++ ".yaml")) w2 with ⟨ok, m⟩
      cases ok with
      | false =>
        simp only [DeployKustomize.apply, hC, hW, ExecuteCmd, ha] at h ⊢
        simp at h
        rcases h with h | h
        · exact absurd h ht
        · subst h
          simp [h2]
          intro p c e
          exact hs p c e
      | true =>
        exfalso
        simp only [DeployKustomize.apply, hC, hW, ExecuteCmd, ha] at h
        simp only [bne_self_eq_false, Bool.false_eq_true, if_false] at h
        split at h
        · split at h
          · simp [applyArgs, secretArgs] at h
            exact ht h
          · have := record_trace_ExecuteCmd _ _ _ _ _ _ _ _ _ h
            simp [applyArgs, secretArgs] at this
            exact ht this
        · have := record_trace_ExecuteCmd _ _ _ _ _ _ _ _ _ h
          simp [applyArgs] at this
          exact ht this

/-- C5: when the `kubectl apply` command run by `DeployFile`, or the one run by
`DeployKustomize`, fails with message `msg`, the procedure returns `(false, msg)`, it
attempts no save of a store, and all stores are as they were before the call. -/
theorem apply_failure_leaves_store (env : Env) (w : World) (yamlName service argument : String)
    (msg : String) :
    (Event.ExecuteCmd "kubectl" (applyArgs yamlName) false msg ∈
        (DeployFile env yamlName w).trace →
      (DeployFile env yamlName w).success = false ∧
      (DeployFile env yamlName w).message = msg ∧
      (DeployFile env yamlName w).world.stores = w.stores ∧
      ∀ p c e, Event.SaveTo p c e ∉ (DeployFile env yamlName w).trace) ∧
    (Event.ExecuteCmd "kubectl"
        (applyArgs (workspace service ++ "/" ++ service ++ ".yaml")) false msg ∈
        (DeployKustomize env service argument w).trace →
      (DeployKustomize env service argument w).success = false ∧
      (DeployKustomize env service argument w).message = msg ∧
      (DeployKustomize env service argument w).world.stores = w.stores ∧
      ∀ p c e, Event.SaveTo p c e ∉ (DeployKustomize env service argument w).trace) := by
  constructor
  · intro h
    rcases hc : env.command "kubectl" (applyArgs yamlName) w with ⟨ok, m⟩
    cases ok with
    | false =>
      simp only [DeployFile, ExecuteCmd, hc] at h ⊢
      simp at h
      simp [h]
    | true =>
      exfalso
      simp only [DeployFile, ExecuteCmd, hc] at h
      simp only [bne_self_eq_false, Bool.false_eq_true, if_false] at h
      split at h
      · simp at h
      · split at h <;> simp at h
  · intro h
    rcases hM : MkdirAll env (workspace service ++ "/overlay")
      (RemoveAll (workspace service) w) with ⟨e1, w1⟩
    have h1 : w1.stores = w.stores := stores_MkdirAll hM
    cases e1 with
    | some err => simp [DeployKustomize, hM] at h
    | none =>
      rcases hS : Symlink env ("/usr/share/k8s-yaml/" ++ service)
        (workspace service ++ "/base") w1 with ⟨e2, w2⟩
      have h2 : w2.stores = w.stores := (stores_Symlink hS).trans h1
      cases e2 with
      | some err => simp [DeployKustomize, hM, hS] at h
      | none =>
        have h3 : (setupOverlay env service argument w2).2.stores = w.stores :=
          (stores_setupOverlay env service argument w2).trans h2
        simp only [DeployKustomize, hM, hS] at h ⊢
        split at h
        · simp at h
        · split at h
          · simp at h
          · next hb hbuild =>
            rw [if_neg hb, if_neg hbuild]
            have := apply_failure env service _ _ _ _ msg (by simp) (by simp) h
            refine ⟨this.1, this.2.1, ?_, this.2.2.2⟩
            rw [this.2.2.1]
            exact h3
/-! ## Evaluations -/

/-- C6: at the deployment of `hello-kubic` on an empty machine whose cluster cannot be
reached, the overlay build succeeds and `kubectl apply` fails; `DeployKustomize` returns
`(false, "connection refused")` and the workspace directory of the service still exists.
On the same machine with a failing overlay build the workspace is gone on return. -/
theorem DeployKustomize_apply_failure_keeps_workspace :
    (DeployKustomize envNoCluster "hello-kubic" "NodePort" worldEmpty).success = false ∧
    (DeployKustomize envNoCluster "hello-kubic" "NodePort" worldEmpty).message =
      "connection refused" ∧
    Event.ExecuteCmd "kubectl"
      (applyArgs "/var/lib/kubic-control/kustomize/hello-kubic/hello-kubic.yaml") false
      "connection refused" ∈
      (DeployKustomize envNoCluster "hello-kubic" "NodePort" worldEmpty).trace ∧
    (DeployKustomize envNoCluster "hello-kubic" "NodePort" worldEmpty).world.pathExists
      "/var/lib/kubic-control/kustomize/hello-kubic" = true ∧
    (DeployKustomize envNoBuild "hello-kubic" "NodePort" worldEmpty).world.pathExists
      "/var/lib/kubic-control/kustomize/hello-kubic" = false := by
  decide

/-- C8: on a machine with three empty stores, `DeployKustomize` of `hello-kubic` succeeds and
stores the digest of the build output `kind: Service`.  The incremental pass that follows
gets the same bytes from `kustomize build`, hands them to `Sha256sum_f` as a file name, gets
an empty fingerprint, which differs from the stored one, and invokes `UpdateKustomize` for
the service. -/
theorem UpdateAll_reapplies_unchanged_overlay :
    (DeployKustomize envOk "hello-kubic" "NodePort" worldFresh).success = true ∧
    ((DeployKustomize envOk "hello-kubic" "NodePort" worldFresh).world.store
      kustomizeConf).entries = [("hello-kubic", envOk.digest "kind: Service")] ∧
    (UpdateAll envOk false
      (DeployKustomize envOk "hello-kubic" "NodePort" worldFresh).world).trace =
      [Event.ExecuteCmd "kustomize"
          ["build", "/var/lib/kubic-control/kustomize/hello-kubic/overlay"] true "kind: Service",
        Event.Sha256sum_f "kind: Service" ""
          (some "open kind: Service: no such file or directory"),
        Event.UpdateKustomize "hello-kubic" true ""] := by
  decide
/-! ## Lemmas: traces of `UpdateAll` -/

theorem FailFast_nil (r : Option (Bool × String)) : FailFast [] r := by
  intro pre e post msg h
  simp at h

theorem FailFast_cons (e0 : Event) (t : List Event) (r : Option (Bool × String))
    (h0 : e0.failure = none) (h : FailFast t r) : FailFast (e0 :: t) r := by
  intro pre e post msg hsplit hfail
  cases pre with
  | nil =>
    simp only [List.nil_append, List.cons.injEq] at hsplit
    rw [← hsplit.1, h0] at hfail
    cases hfail
  | cons a pre =>
    simp only [List.cons_append, List.cons.injEq] at hsplit
    exact h pre e post msg hsplit.2 hfail

theorem FailFast_single (e0 : Event) (m : String) (h0 : e0.failure = some m) :
    FailFast [e0] (some (false, m)) := by
  intro pre e post msg hsplit hfail
  cases pre with
  | nil =>
    simp only [List.nil_append, List.cons.injEq] at hsplit
    rw [← hsplit.1, h0] at hfail
    cases hfail
    exact ⟨hsplit.2.symm, rfl⟩
  | cons a pre =>
    simp at hsplit

theorem FailFast_append (t1 t2 : List Event) (r : Option (Bool × String))
    (h1 : ∀ e ∈ t1, e.failure = none) (h2 : FailFast t2 r) : FailFast (t1 ++ t2) r := by
  induction t1 with
  | nil => simpa using h2
  | cons a t ih =>
    exact FailFast_cons a (t ++ t2) r (h1 a (List.mem_cons_self a t))
      (ih (fun e he => h1 e (List.mem_cons_of_mem a he)))

theorem FailFast_of_clean (t : List Event) (r : Option (Bool × String))
    (h : ∀ e ∈ t, e.failure = none) : FailFast t r := by
  have := FailFast_append t [] r h (FailFast_nil r)
  simpa using this

theorem clean_of_FailFast_none (t : List Event) (h : FailFast t none) :
    ∀ e ∈ t, e.failure = none := by
  intro e he
  rcases List.append_of_mem he with ⟨pre, post, hsplit⟩
  cases hf : e.failure with
  | none => rfl
  | some msg => exact absurd (h pre e post msg hsplit hf).2 (by simp)

theorem FailFast_after (evs : List Event) (p : Pass) (h1 : ∀ e ∈ evs, e.failure = none)
    (h2 : FailFast p.trace p.ret) : FailFast (p.after evs).trace (p.after evs).ret :=
  FailFast_append evs p.trace p.ret h1 h2

theorem replay_append (env : Env) (t1 t2 : List Event) (w : World) :
    replay env (t1 ++ t2) w = replay env t2 (replay env t1 w) := by
  simp [replay, List.foldl_append]

theorem after_spec (env : Env) (evs : List Event) (p : Pass) (w w1 : World)
    (hclean : ∀ e ∈ evs, e.failure = none) (hw : replay env evs w = w1)
    (ih : FailFast p.trace p.ret ∧ p.world = replay env p.trace w1) :
    FailFast (p.after evs).trace (p.after evs).ret ∧
    (p.after evs).world = replay env (p.after evs).trace w := by
  refine ⟨FailFast_after evs p hclean ih.1, ?_⟩
  show p.world = replay env (evs ++ p.trace) w
  rw [replay_append, hw]
  exact ih.2

theorem plain_spec (env : Env) (forced : Bool) (cfg : Ini) (keys : List String) (w : World) :
    FailFast (UpdateAll.plain env forced cfg keys w).trace
      (UpdateAll.plain env forced cfg keys w).ret ∧
    (UpdateAll.plain env forced cfg keys w).world =
      replay env (UpdateAll.plain env forced cfg keys w).trace w := by
  induction keys generalizing w with
  | nil => exact ⟨FailFast_nil _, rfl⟩
  | cons key keys ih =>
    rcases hr : env.UpdateFile key w with ⟨⟨ok, m⟩, w1⟩
    have hw1 : (env.UpdateFile key w).2 = w1 := by rw [hr]
    cases forced with
    | true =>
      cases ok with
      | false =>
        simp only [UpdateAll.plain, hr, if_true, Bool.false_eq_true, if_false,
          bne_self_eq_false, Bool.true_bne, Bool.not_false]
        exact ⟨FailFast_single _ m rfl, by simp [replay, Event.effect, hw1]⟩
      | true =>
        simp only [UpdateAll.plain, hr, if_true, Bool.false_eq_true, if_false,
          bne_self_eq_false]
        exact after_spec env _ _ w w1 (by simp [Event.failure])
          (by simp [replay, Event.effect, hw1]) (ih w1)
    | false =>
      by_cases hh : (Sha256sum_f env key w).1 = cfg.get key
      · have heq : ((Sha256sum_f env key w).1 != cfg.get key) = false := by simp [hh]
        simp only [UpdateAll.plain, heq, Bool.false_eq_true, if_false]
        exact after_spec env _ _ w w (by simp [Event.failure])
          (by simp [replay, Event.effect]) (ih w)
      · have hne : ((Sha256sum_f env key w).1 != cfg.get key) = true := by simpa using hh
        cases ok with
        | false =>
          simp only [UpdateAll.plain, hr, hne, Bool.false_eq_true, if_false, if_true,
            bne_self_eq_false, Bool.true_bne, Bool.not_false]
          exact ⟨FailFast_cons _ _ _ rfl (FailFast_single _ m rfl),
            by simp [replay, Event.effect, hw1]⟩
        | true =>
          simp only [UpdateAll.plain, hr, hne, Bool.false_eq_true, if_false, if_true,
            bne_self_eq_false]
          exact after_spec env _ _ w w1 (by simp [Event.failure])
            (by simp [replay, Event.effect, hw1]) (ih w1)

theorem kustomize_spec (env : Env) (forced : Bool) (cfg : Ini) (keys : List String)
    (w : World) :
    FailFast (UpdateAll.kustomize env forced cfg keys w).trace
      (UpdateAll.kustomize env forced cfg keys w).ret ∧
    (UpdateAll.kustomize env forced cfg keys w).world =
      replay env (UpdateAll.kustomize env forced cfg keys w).trace w := by
  induction keys generalizing w with
  | nil => exact ⟨FailFast_nil _, rfl⟩
  | cons key keys ih =>
    cases forced with
    | true =>
      rcases hr : env.UpdateKustomize key w with ⟨⟨ok, m⟩, w1⟩
      have hw1 : (env.UpdateKustomize key w).2 = w1 := by rw [hr]
      cases ok with
      | false =>
        simp only [UpdateAll.kustomize, hr, if_true, Bool.false_eq_true, if_false,
          bne_self_eq_false, Bool.true_bne, Bool.not_false]
        exact ⟨FailFast_single _ m rfl, by simp [replay, Event.effect, hw1]⟩
      | true =>
        simp only [UpdateAll.kustomize, hr, if_true, Bool.false_eq_true, if_false,
          bne_self_eq_false]
        exact after_spec env _ _ w w1 (by simp [Event.failure])
          (by simp [replay, Event.effect, hw1]) (ih w1)
    | false =>
      rcases hb : env.command "kustomize"
        ["build", StateDir ++ "/kustomize/" ++ key ++ "/overlay"] w with ⟨bok, out⟩
      cases bok with
      | false =>
        simp only [UpdateAll.kustomize, ExecuteCmd, hb, Bool.false_eq_true, if_false, if_true,
          bne_self_eq_false, Bool.true_bne, Bool.not_false]
        exact ⟨FailFast_of_clean _ _ (by simp [Event.failure]),
          by simp [replay, Event.effect, ExecuteCmd]⟩
      | true =>
        rcases hr : env.UpdateKustomize key { w with ext := w.ext + 1 } with ⟨⟨ok, m⟩, w1⟩
        have hw1 : (env.UpdateKustomize key { w with ext := w.ext + 1 }).2 = w1 := by rw [hr]
        by_cases hh : (Sha256sum_f env out { w with ext := w.ext + 1 }).1 = cfg.get key
        · have heq : ((Sha256sum_f env out { w with ext := w.ext + 1 }).1 != cfg.get key)
              = false := by simp [hh]
          simp only [UpdateAll.kustomize, ExecuteCmd, hb, heq, Bool.false_eq_true, if_false,
            bne_self_eq_false]
          exact after_spec env _ _ w { w with ext := w.ext + 1 } (by simp [Event.failure])
            (by simp [replay, Event.effect, ExecuteCmd]) (ih _)
        · have hne : ((Sha256sum_f env out { w with ext := w.ext + 1 }).1 != cfg.get key)
              = true := by simpa using hh
          cases ok with
          | false =>
            simp only [UpdateAll.kustomize, ExecuteCmd, hb, hr, hne, Bool.false_eq_true,
              if_false, if_true, bne_self_eq_false, Bool.true_bne, Bool.not_false]
            exact ⟨FailFast_cons _ _ _ rfl (FailFast_cons _ _ _ rfl (FailFast_single _ m rfl)),
              by simp [replay, Event.effect, ExecuteCmd, hw1]⟩
          | true =>
            simp only [UpdateAll.kustomize, ExecuteCmd, hb, hr, hne, Bool.false_eq_true,
              if_false, if_true, bne_self_eq_false]
            exact after_spec env _ _ w w1 (by simp [Event.failure])
              (by simp [replay, Event.effect, ExecuteCmd, hw1]) (ih w1)

theorem helm_spec (env : Env) (forced : Bool) (cfg : Ini) (keys : List String) (w : World) :
    FailFast (UpdateAll.helm env forced cfg keys w).trace
      (UpdateAll.helm env forced cfg keys w).ret ∧
    (UpdateAll.helm env forced cfg keys w).world =
      replay env (UpdateAll.helm env forced cfg keys w).trace w := by
  induction keys generalizing w with
  | nil => exact ⟨FailFast_nil _, rfl⟩
  | cons c keys ih =>
    cases forced with
    | true =>
      rcases hr : env.UpdateHelm c (cfg.get (c ++ ".releaseName")) (cfg.get (c ++ ".valuesPath"))
        (cfg.get (c ++ ".namespace")) w with ⟨err, w1⟩
      cases err with
      | some m =>
        simp only [UpdateAll.helm, hr, if_true]
        exact ⟨FailFast_single _ m rfl, by simp [replay, Event.effect, hr]⟩
      | none =>
        simp only [UpdateAll.helm, hr, if_true]
        exact after_spec env _ _ w w1 (by simp [Event.failure])
          (by simp [replay, Event.effect, hr]) (ih w1)
    | false =>
      rcases hc : env.checkHelmUpdate c (cfg.get (c ++ ".releaseName"))
        (cfg.get (c ++ ".valuesPath")) (cfg.get (c ++ ".namespace")) (cfg.get c) w
        with ⟨⟨needs, cerr⟩, w0⟩
      cases cerr with
      | some m =>
        simp only [UpdateAll.helm, hc, Bool.false_eq_true, if_false]
        exact ⟨FailFast_of_clean _ _ (by simp [Event.failure]),
          by simp [replay, Event.effect, hc]⟩
      | none =>
        cases needs with
        | false =>
          simp only [UpdateAll.helm, hc, Bool.false_eq_true, if_false]
          exact after_spec env _ _ w w0 (by simp [Event.failure])
            (by simp [replay, Event.effect, hc]) (ih w0)
        | true =>
          rcases hr : env.UpdateHelm c (cfg.get (c ++ ".releaseName"))
            (cfg.get (c ++ ".valuesPath")) (cfg.get (c ++ ".namespace")) w0 with ⟨err, w1⟩
          cases err with
          | some m =>
            simp only [UpdateAll.helm, hc, hr, Bool.false_eq_true, if_false, if_true]
            exact ⟨FailFast_cons _ _ _ rfl (FailFast_single _ m rfl),
              by simp [replay, Event.effect, hc, hr]⟩
          | none =>
            simp only [UpdateAll.helm, hc, hr, Bool.false_eq_true, if_false, if_true]
            exact after_spec env _ _ w w1 (by simp [Event.failure])
              (by simp [replay, Event.effect, hc, hr]) (ih w1)

theorem UpdateAll_spec (env : Env) (forced : Bool) (w : World) :
    FailFast (UpdateAll env forced w).trace
      (some ((UpdateAll env forced w).success, (UpdateAll env forced w).message)) ∧
    (UpdateAll env forced w).world = replay env (UpdateAll env forced w).trace w := by
  unfold UpdateAll
  cases hP : Load yamlConf w with
  | error err => exact ⟨FailFast_nil _, rfl⟩
  | ok cfg =>
    have hp := plain_spec env forced cfg cfg.KeyStrings w
    simp only []
    cases hpr : (UpdateAll.plain env forced cfg cfg.KeyStrings w).ret with
    | some r =>
      rw [hpr] at hp
      exact ⟨hp.1, hp.2⟩
    | none =>
      rw [hpr] at hp
      have cp := clean_of_FailFast_none _ hp.1
      simp only []
      cases hK : Load kustomizeConf (UpdateAll.plain env forced cfg cfg.KeyStrings w).world with
      | error err => exact ⟨FailFast_of_clean _ _ cp, hp.2⟩
      | ok cfgK =>
        have hk := kustomize_spec env forced cfgK cfgK.KeyStrings
          (UpdateAll.plain env forced cfg cfg.KeyStrings w).world
        simp only []
        cases hkr : (UpdateAll.kustomize env forced cfgK cfgK.KeyStrings
            (UpdateAll.plain env forced cfg cfg.KeyStrings w).world).ret with
        | some r =>
          rw [hkr] at hk
          refine ⟨FailFast_append _ _ _ cp hk.1, ?_⟩
          simp only []
          rw [replay_append, ← hp.2]
          exact hk.2
        | none =>
          rw [hkr] at hk
          have ck := clean_of_FailFast_none _ hk.1
          have cpk : ∀ e ∈ (UpdateAll.plain env forced cfg cfg.KeyStrings w).trace ++
              (UpdateAll.kustomize env forced cfgK cfgK.KeyStrings
                (UpdateAll.plain env forced cfg cfg.KeyStrings w).world).trace,
              e.failure = none := by
            intro e he
            rcases List.mem_append.mp he with h | h
            · exact cp e h
            · exact ck e h
          have wk : (UpdateAll.kustomize env forced cfgK cfgK.KeyStrings
                (UpdateAll.plain env forced cfg cfg.KeyStrings w).world).world =
              replay env ((UpdateAll.plain env forced cfg cfg.KeyStrings w).trace ++
                (UpdateAll.kustomize env forced cfgK cfgK.KeyStrings
                  (UpdateAll.plain env forced cfg cfg.KeyStrings w).world).trace) w := by
            rw [replay_append, ← hp.2]
            exact hk.2
          simp only []
          cases hH : Load helmConf (UpdateAll.kustomize env forced cfgK cfgK.KeyStrings
              (UpdateAll.plain env forced cfg cfg.KeyStrings w).world).world with
          | error err => exact ⟨FailFast_of_clean _ _ cpk, wk⟩
          | ok cfgH =>
            have hh := helm_spec env forced cfgH cfgH.KeyStrings
              (UpdateAll.kustomize env forced cfgK cfgK.KeyStrings
                (UpdateAll.plain env forced cfg cfg.KeyStrings w).world).world
            simp only []
            cases hhr : (UpdateAll.helm env forced cfgH cfgH.KeyStrings
                (UpdateAll.kustomize env forced cfgK cfgK.KeyStrings
                  (UpdateAll.plain env forced cfg cfg.KeyStrings w).world).world).ret with
            | some r =>
              rw [hhr] at hh
              refine ⟨FailFast_append _ _ _ cpk hh.1, ?_⟩
              simp only []
              rw [replay_append, ← wk]
              exact hh.2
            | none =>
              rw [hhr] at hh
              have ch := clean_of_FailFast_none _ hh.1
              refine ⟨FailFast_append _ _ _ cpk (FailFast_of_clean _ _ ch), ?_⟩
              simp only []
              rw [replay_append, ← wk]
              exact hh.2

/-! ## Theorems: `UpdateAll` -/

/-- C10: in either mode, when a call in the trace of `UpdateAll` is a failed apply
(`UpdateFile` or `UpdateKustomize` with `success = false`, or `UpdateHelm` with an error)
with message `msg`, that call is the last one made (no apply, fingerprint computation or
command follows it), `UpdateAll` returns `(false, msg)`, and the state on return is the
state produced by the calls of the pass up to and including the failed one. -/
theorem UpdateAll_fail_fast (env : Env) (forced : Bool) (w : World) (pre post : List Event)
    (e : Event) (msg : String)
    (hsplit : (UpdateAll env forced w).trace = pre ++ e :: post)
    (hfail : e.failure = some msg) :
    post = [] ∧
    (UpdateAll env forced w).success = false ∧
    (UpdateAll env forced w).message = msg ∧
    (UpdateAll env forced w).world = replay env (pre ++ [e]) w := by
  have h := UpdateAll_spec env forced w
  have h1 := h.1 pre e post msg hsplit hfail
  have hpost : post = [] := h1.1
  have hret := h1.2
  simp only [Option.some.injEq, Prod.mk.injEq] at hret
  refine ⟨hpost, hret.1, hret.2, ?_⟩
  rw [h.2, hsplit, hpost]

theorem plain_forced_frame {α : Type} (env : Env) (cfg : Ini) (f : World → α)
    (hf : ∀ key w, f (env.UpdateFile key w).2 = f w) (keys : List String) (w : World) :
    f (UpdateAll.plain env true cfg keys w).world = f w := by
  induction keys generalizing w with
  | nil => rfl
  | cons key keys ih =>
    simp only [UpdateAll.plain, if_true]
    split
    · exact hf key w
    · exact (ih _).trans (hf key w)

theorem kustomize_forced_frame {α : Type} (env : Env) (cfg : Ini) (f : World → α)
    (hf : ∀ key w, f (env.UpdateKustomize key w).2 = f w) (keys : List String) (w : World) :
    f (UpdateAll.kustomize env true cfg keys w).world = f w := by
  induction keys generalizing w with
  | nil => rfl
  | cons key keys ih =>
    simp only [UpdateAll.kustomize, if_true]
    split
    · exact hf key w
    · exact (ih _).trans (hf key w)

theorem plain_forced (env : Env) (cfg : Ini) (keys : List String) (w : World)
    (hclean : ∀ e ∈ (UpdateAll.plain env true cfg keys w).trace, e.failure = none) :
    (UpdateAll.plain env true cfg keys w).ret = none ∧
    (UpdateAll.plain env true cfg keys w).trace.filterMap Event.applied =
      keys.map Applied.UpdateFile := by
  induction keys generalizing w with
  | nil => exact ⟨rfl, rfl⟩
  | cons key keys ih =>
    rcases hr : env.UpdateFile key w with ⟨⟨ok, m⟩, w1⟩
    cases ok with
    | false =>
      exfalso
      simp only [UpdateAll.plain, hr, if_true, Bool.false_eq_true, if_false,
        bne_self_eq_false, Bool.true_bne, Bool.not_false] at hclean
      have := hclean _ (List.mem_singleton.mpr rfl)
      simp [Event.failure] at this
    | true =>
      simp only [UpdateAll.plain, hr, if_true, Bool.false_eq_true, if_false,
        bne_self_eq_false] at hclean ⊢
      have ih1 := ih w1 (fun e he => hclean e (by simp [Pass.after, he]))
      exact ⟨ih1.1, by simp [Pass.after, Event.applied, ih1.2]⟩

theorem kustomize_forced (env : Env) (cfg : Ini) (keys : List String) (w : World)
    (hclean : ∀ e ∈ (UpdateAll.kustomize env true cfg keys w).trace, e.failure = none) :
    (UpdateAll.kustomize env true cfg keys w).ret = none ∧
    (UpdateAll.kustomize env true cfg keys w).trace.filterMap Event.applied =
      keys.map Applied.UpdateKustomize := by
  induction keys generalizing w with
  | nil => exact ⟨rfl, rfl⟩
  | cons key keys ih =>
    rcases hr : env.UpdateKustomize key w with ⟨⟨ok, m⟩, w1⟩
    cases ok with
    | false =>
      exfalso
      simp only [UpdateAll.kustomize, hr, if_true, Bool.false_eq_true, if_false,
        bne_self_eq_false, Bool.true_bne, Bool.not_false] at hclean
      have := hclean _ (List.mem_singleton.mpr rfl)
      simp [Event.failure] at this
    | true =>
      simp only [UpdateAll.kustomize, hr, if_true, Bool.false_eq_true, if_false,
        bne_self_eq_false] at hclean ⊢
      have ih1 := ih w1 (fun e he => hclean e (by simp [Pass.after, he]))
      exact ⟨ih1.1, by simp [Pass.after, Event.applied, ih1.2]⟩

theorem helm_forced (env : Env) (cfg : Ini) (keys : List String) (w : World)
    (hclean : ∀ e ∈ (UpdateAll.helm env true cfg keys w).trace, e.failure = none) :
    (UpdateAll.helm env true cfg keys w).ret = none ∧
    (UpdateAll.helm env true cfg keys w).trace.filterMap Event.applied =
      keys.map (fun c => Applied.UpdateHelm c (cfg.get (c ++ ".releaseName"))
        (cfg.get (c ++ ".valuesPath")) (cfg.get (c ++ ".namespace"))) := by
  induction keys generalizing w with
  | nil => exact ⟨rfl, rfl⟩
  | cons c keys ih =>
    rcases hr : env.UpdateHelm c (cfg.get (c ++ ".releaseName")) (cfg.get (c ++ ".valuesPath"))
      (cfg.get (c ++ ".namespace")) w with ⟨err, w1⟩
    cases err with
    | some m =>
      exfalso
      simp only [UpdateAll.helm, hr, if_true] at hclean
      have := hclean _ (List.mem_singleton.mpr rfl)
      simp [Event.failure] at this
    | none =>
      simp only [UpdateAll.helm, hr, if_true] at hclean ⊢
      have ih1 := ih w1 (fun e he => hclean e (by simp [Pass.after, he]))
      exact ⟨ih1.1, by simp [Pass.after, Event.applied, ih1.2]⟩

/-- C9: in a forced pass on a state in which the three stores load, where applying a plain
file leaves the overlay and packaged stores as they are and applying an overlay leaves the
packaged store as it is, and in which no apply fails, the list of apply invocations of
`UpdateAll` is exactly: `UpdateFile` for each key of the plain store, then `UpdateKustomize`
for each key of the overlay store, then `UpdateHelm` for each key of the packaged store, each
store in its enumeration order (one invocation per enumerated key, whatever its
fingerprint), and the pass returns `(true, "")`. -/
theorem UpdateAll_forced_applies_all (env : Env) (w : World) (cfgP cfgK cfgH : Ini)
    (hP : Load yamlConf w = Except.ok cfgP)
    (hK : Load kustomizeConf w = Except.ok cfgK)
    (hH : Load helmConf w = Except.ok cfgH)
    (hFK : ∀ key s, Load kustomizeConf (env.UpdateFile key s).2 = Load kustomizeConf s)
    (hFH : ∀ key s, Load helmConf (env.UpdateFile key s).2 = Load helmConf s)
    (hKH : ∀ key s, Load helmConf (env.UpdateKustomize key s).2 = Load helmConf s)
    (hclean : ∀ e ∈ (UpdateAll env true w).trace, e.failure = none) :
    (UpdateAll env true w).trace.filterMap Event.applied =
      cfgP.KeyStrings.map Applied.UpdateFile ++
      cfgK.KeyStrings.map Applied.UpdateKustomize ++
      cfgH.KeyStrings.map (fun c => Applied.UpdateHelm c (cfgH.get (c ++ ".releaseName"))
        (cfgH.get (c ++ ".valuesPath")) (cfgH.get (c ++ ".namespace"))) ∧
    (UpdateAll env true w).success = true ∧
    (UpdateAll env true w).message = "" := by
  have hKw : Load kustomizeConf (UpdateAll.plain env true cfgP cfgP.KeyStrings w).world =
      Except.ok cfgK :=
    (plain_forced_frame env cfgP (Load kustomizeConf) hFK _ w).trans hK
  have hHw : Load helmConf (UpdateAll.kustomize env true cfgK cfgK.KeyStrings
      (UpdateAll.plain env true cfgP cfgP.KeyStrings w).world).world = Except.ok cfgH :=
    (kustomize_forced_frame env cfgK (Load helmConf) hKH _ _).trans
      ((plain_forced_frame env cfgP (Load helmConf) hFH _ w).trans hH)
  simp only [UpdateAll, hP, hKw, hHw] at hclean ⊢
  cases hpr : (UpdateAll.plain env true cfgP cfgP.KeyStrings w).ret with
  | some r =>
    exfalso
    simp only [hpr] at hclean
    have := (plain_forced env cfgP _ w hclean).1
    rw [hpr] at this
    cases this
  | none =>
    simp only [hpr] at hclean ⊢
    cases hkr : (UpdateAll.kustomize env true cfgK cfgK.KeyStrings
        (UpdateAll.plain env true cfgP cfgP.KeyStrings w).world).ret with
    | some r =>
      exfalso
      simp only [hkr] at hclean
      have := (kustomize_forced env cfgK _ _
        (fun e he => hclean e (List.mem_append_right _ he))).1
      rw [hkr] at this
      cases this
    | none =>
      simp only [hkr] at hclean ⊢
      cases hhr : (UpdateAll.helm env true cfgH cfgH.KeyStrings
          (UpdateAll.kustomize env true cfgK cfgK.KeyStrings
            (UpdateAll.plain env true cfgP cfgP.KeyStrings w).world).world).ret with
      | some r =>
        exfalso
        simp only [hhr] at hclean
        have := (helm_forced env cfgH _ _
          (fun e he => hclean e (List.mem_append_right _ he))).1
        rw [hhr] at this
        cases this
      | none =>
        simp only [hhr] at hclean ⊢
        have c1 := plain_forced env cfgP _ w
          (fun e he => hclean e (List.mem_append_left _ (List.mem_append_left _ he)))
        have c2 := kustomize_forced env cfgK _ _
          (fun e he => hclean e (List.mem_append_left _ (List.mem_append_right _ he)))
        have c3 := helm_forced env cfgH _ _
          (fun e he => hclean e (List.mem_append_right _ he))
        refine ⟨?_, trivial, trivial⟩
        rw [List.filterMap_append, List.filterMap_append, c1.2, c2.2, c3.2]

theorem Sha256sum_f_fs (env : Env) (file : String) (w s : World) (h : s.fs = w.fs) :
    Sha256sum_f env file s = Sha256sum_f env file w := by
  simp [Sha256sum_f, World.readFile, h]

theorem kustomize_no_UpdateFile (env : Env) (forced : Bool) (cfg : Ini) (key : String)
    (keys : List String) (w : World) :
    (UpdateAll.kustomize env forced cfg keys w).trace.countP (Event.isUpdateFile key) = 0 := by
  induction keys generalizing w with
  | nil => rfl
  | cons k keys ih =>
    unfold UpdateAll.kustomize
    simp only []
    split
    · split
      · simp [Event.isUpdateFile]
      · simp [Pass.after, Event.isUpdateFile, List.countP_cons, ih]
    · split
      · simp [Event.isUpdateFile]
      · split
        · split
          · simp [Event.isUpdateFile]
          · simp [Pass.after, Event.isUpdateFile, List.countP_cons, ih]
        · simp [Pass.after, Event.isUpdateFile, List.countP_cons, ih]

theorem helm_no_UpdateFile (env : Env) (forced : Bool) (cfg : Ini) (key : String)
    (keys : List String) (w : World) :
    (UpdateAll.helm env forced cfg keys w).trace.countP (Event.isUpdateFile key) = 0 := by
  induction keys generalizing w with
  | nil => rfl
  | cons k keys ih =>
    unfold UpdateAll.helm
    simp only []
    split
    · split
      · simp [Event.isUpdateFile]
      · simp [Pass.after, Event.isUpdateFile, List.countP_cons, ih]
    · split
      · simp [Event.isUpdateFile]
      · split
        · split
          · simp [Event.isUpdateFile]
          · simp [Pass.after, Event.isUpdateFile, List.countP_cons, ih]
        · simp [Pass.after, Event.isUpdateFile, List.countP_cons, ih]

theorem plain_incremental (env : Env) (cfg : Ini)
    (hframe : ∀ k s, (env.UpdateFile k s).2.fs = s.fs) (key : String)
    (keys : List String) (w : World) (hnodup : keys.Nodup)
    (hclean : ∀ e ∈ (UpdateAll.plain env false cfg keys w).trace, e.failure = none) :
    (UpdateAll.plain env false cfg keys w).ret = none ∧
    (UpdateAll.plain env false cfg keys w).trace.countP (Event.isUpdateFile key) =
      if key ∈ keys ∧ (Sha256sum_f env key w).1 ≠ cfg.get key then 1 else 0 := by
  induction keys generalizing w with
  | nil => exact ⟨rfl, by simp [UpdateAll.plain]⟩
  | cons k keys ih =>
    have hk : k ∉ keys := (List.nodup_cons.mp hnodup).1
    have hn : keys.Nodup := (List.nodup_cons.mp hnodup).2
    by_cases hh : (Sha256sum_f env k w).1 = cfg.get k
    · have heq : ((Sha256sum_f env k w).1 != cfg.get k) = false := by simp [hh]
      simp only [UpdateAll.plain, heq, Bool.false_eq_true, if_false] at hclean ⊢
      have ih1 := ih w hn (fun e he => hclean e (by simp [Pass.after, he]))
      refine ⟨ih1.1, ?_⟩
      simp only [Pass.after, List.singleton_append, List.countP_cons, Event.isUpdateFile,
        Bool.false_eq_true, if_false, Nat.add_zero, ih1.2, List.mem_cons]
      by_cases hkey : key = k
      · subst hkey
        simp [hk, hh]
      · simp [hkey]
    · have hne : ((Sha256sum_f env k w).1 != cfg.get k) = true := by simpa using hh
      rcases hr : env.UpdateFile k w with ⟨⟨ok, m⟩, w1⟩
      have hfs : w1.fs = w.fs := by have := hframe k w; rw [hr] at this; exact this
      cases ok with
      | false =>
        exfalso
        simp only [UpdateAll.plain, hr, hne, Bool.false_eq_true, if_false, if_true,
          bne_self_eq_false, Bool.true_bne, Bool.not_false] at hclean
        have := hclean (Event.UpdateFile k false m) (by simp)
        simp [Event.failure] at this
      | true =>
        simp only [UpdateAll.plain, hr, hne, Bool.false_eq_true, if_false, if_true,
          bne_self_eq_false] at hclean ⊢
        have ih1 := ih w1 hn (fun e he => hclean e (by simp [Pass.after, he]))
        refine ⟨ih1.1, ?_⟩
        simp only [Pass.after, List.cons_append, List.nil_append, List.countP_cons,
          Event.isUpdateFile, Bool.false_eq_true, if_false, Nat.add_zero, ih1.2,
          List.mem_cons, Sha256sum_f_fs env key w w1 hfs]
        by_cases hkey : key = k
        · subst hkey
          simp [hk, hh]
        · have : (k == key) = false := by simpa using fun h => hkey h.symm
          simp [hkey, this]

/-- C7: in an incremental pass on a state whose plain store loads with distinct keys, where
`UpdateFile` leaves the files as they are, and in which no apply fails, `UpdateFile` is
invoked for a key of the plain store exactly once when the current digest of the file
differs from the stored fingerprint of the key, and not at all when they are equal. -/
theorem UpdateAll_incremental_plain (env : Env) (w : World) (cfg : Ini)
    (hP : Load yamlConf w = Except.ok cfg)
    (hnodup : cfg.KeyStrings.Nodup)
    (hframe : ∀ k s, (env.UpdateFile k s).2.fs = s.fs)
    (hclean : ∀ e ∈ (UpdateAll env false w).trace, e.failure = none)
    (key : String) (hkey : key ∈ cfg.KeyStrings) :
    (UpdateAll env false w).trace.countP (Event.isUpdateFile key) =
      if (Sha256sum_f env key w).1 = cfg.get key then 0 else 1 := by
  have hsub : ∀ e ∈ (UpdateAll.plain env false cfg cfg.KeyStrings w).trace,
      e ∈ (UpdateAll env false w).trace := by
    intro e he
    simp only [UpdateAll, hP]
    split
    · exact he
    · split
      · exact he
      · split
        · exact List.mem_append_left _ he
        · split
          · exact List.mem_append_left _ he
          · split
            · exact List.mem_append_left _ (List.mem_append_left _ he)
            · exact List.mem_append_left _ (List.mem_append_left _ he)
  have hp := plain_incremental env cfg hframe key cfg.KeyStrings w hnodup
    (fun e he => hclean e (hsub e he))
  have hcount : (UpdateAll env false w).trace.countP (Event.isUpdateFile key) =
      (UpdateAll.plain env false cfg cfg.KeyStrings w).trace.countP
        (Event.isUpdateFile key) := by
    simp only [UpdateAll, hP]
    split
    · rfl
    · split
      · rfl
      · split
        · simp [List.countP_append, kustomize_no_UpdateFile]
        · split
          · simp [List.countP_append, kustomize_no_UpdateFile]
          · split
            · simp [List.countP_append, kustomize_no_UpdateFile, helm_no_UpdateFile]
            · simp [List.countP_append, kustomize_no_UpdateFile, helm_no_UpdateFile]
  rw [hcount, hp.2]
  by_cases hh : (Sha256sum_f env key w).1 = cfg.get key
  · simp [hh]
  · simp [hh, hkey]

/-! ## Witnesses -/

/-- Witness for C3: the verified caller `mallory` calling `RemoveNode`. -/
theorem AuthInterceptor_audit_after_handler_witness :
    ∃ pre, (AuthInterceptor rbacAdminOnly 1000 ctxMallory "node1" infoRemoveNode
        handlerDone).events =
        pre ++ [CallEvent.handler ctxMallory "node1",
          CallEvent.log ⟨1000 + (handlerDone ctxMallory "node1").elapsed, auditFormat,
            [LogArg.str infoRemoveNode.FullMethod, LogArg.str "mallory",
             LogArg.duration (handlerDone ctxMallory "node1").elapsed,
             LogArg.err (handlerDone ctxMallory "node1").err]⟩] ∧
      (∀ e ∈ pre, e.isAudit = false ∧ e.isHandler = false) ∧
      ((AuthInterceptor rbacAdminOnly 1000 ctxMallory "node1" infoRemoveNode
        handlerDone).events.filter CallEvent.isAudit).length = 1 ∧
      (AuthInterceptor rbacAdminOnly 1000 ctxMallory "node1" infoRemoveNode handlerDone).resp =
        (handlerDone ctxMallory "node1").resp ∧
      (AuthInterceptor rbacAdminOnly 1000 ctxMallory "node1" infoRemoveNode handlerDone).err =
        (handlerDone ctxMallory "node1").err :=
  AuthInterceptor_audit_after_handler rbacAdminOnly 1000 ctxMallory "node1" infoRemoveNode
    handlerDone ⟨"mallory"⟩ [⟨"Kubic-Control-CA"⟩] [] rfl

/-- Witness for C5: both procedures on a machine whose cluster cannot be reached. -/
theorem apply_failure_leaves_store_witness :
    (Event.ExecuteCmd "kubectl" (applyArgs "b.yaml") false "connection refused" ∈
        (DeployFile envNoCluster "b.yaml" worldTracked).trace ∧
      (DeployFile envNoCluster "b.yaml" worldTracked).success = false ∧
      (DeployFile envNoCluster "b.yaml" worldTracked).message = "connection refused" ∧
      (DeployFile envNoCluster "b.yaml" worldTracked).world.stores = worldTracked.stores ∧
      ∀ p c e, Event.SaveTo p c e ∉ (DeployFile envNoCluster "b.yaml" worldTracked).trace) ∧
    (Event.ExecuteCmd "kubectl"
        (applyArgs (workspace "hello-kubic" ++ "/" ++ "hello-kubic" ++ ".yaml")) false
        "connection refused" ∈
        (DeployKustomize envNoCluster "hello-kubic" "NodePort" worldTracked).trace ∧
      (DeployKustomize envNoCluster "hello-kubic" "NodePort" worldTracked).success = false ∧
      (DeployKustomize envNoCluster "hello-kubic" "NodePort" worldTracked).message =
        "connection refused" ∧
      (DeployKustomize envNoCluster "hello-kubic" "NodePort" worldTracked).world.stores =
        worldTracked.stores ∧
      ∀ p c e, Event.SaveTo p c e ∉
        (DeployKustomize envNoCluster "hello-kubic" "NodePort" worldTracked).trace) :=
  ⟨⟨by decide,
      (apply_failure_leaves_store envNoCluster worldTracked "b.yaml" "hello-kubic" "NodePort"
        "connection refused").1 (by decide)⟩,
    ⟨by decide,
      (apply_failure_leaves_store envNoCluster worldTracked "b.yaml" "hello-kubic" "NodePort"
        "connection refused").2 (by decide)⟩⟩

/-- Witness for C7, the scenario of the specification: with the store `app.yaml = abc123`
and the file hashing to `abc123` the incremental pass makes no apply invocation; with the
file hashing to `def456` it makes exactly one, `UpdateFile` for `app.yaml`. -/
theorem UpdateAll_incremental_plain_witness :
    ((Sha256sum_f envScenario "app.yaml" worldSame).1 = "abc123" ∧
      (UpdateAll envScenario false worldSame).trace.countP (Event.isUpdateFile "app.yaml") = 0 ∧
      (UpdateAll envScenario false worldSame).trace.filterMap Event.applied = []) ∧
    ((Sha256sum_f envScenario "app.yaml" worldChanged).1 = "def456" ∧
      (UpdateAll envScenario false worldChanged).trace.countP
        (Event.isUpdateFile "app.yaml") = 1 ∧
      (UpdateAll envScenario false worldChanged).trace.filterMap Event.applied =
        [Applied.UpdateFile "app.yaml"]) :=
  ⟨⟨by decide,
      (UpdateAll_incremental_plain envScenario worldSame storeApp rfl (by decide)
        (fun _ _ => rfl) (by decide) "app.yaml" (by decide)).trans (by decide),
      by decide⟩,
    ⟨by decide,
      (UpdateAll_incremental_plain envScenario worldChanged storeApp rfl (by decide)
        (fun _ _ => rfl) (by decide) "app.yaml" (by decide)).trans (by decide),
      by decide⟩⟩

/-- Witness for C9: the forced pass on the tracking machine. -/
theorem UpdateAll_forced_applies_all_witness :
    (UpdateAll envOk true worldTracked).trace.filterMap Event.applied =
      [Applied.UpdateFile "a.yaml", Applied.UpdateFile "b.yaml",
        Applied.UpdateKustomize "hello-kubic",
        Applied.UpdateHelm "nginx" "web" "/srv/values.yaml" "default",
        Applied.UpdateHelm "nginx.releaseName" "" "" "",
        Applied.UpdateHelm "nginx.valuesPath" "" "" "",
        Applied.UpdateHelm "nginx.namespace" "" "" ""] ∧
    (UpdateAll envOk true worldTracked).success = true ∧
    (UpdateAll envOk true worldTracked).message = "" :=
  UpdateAll_forced_applies_all envOk worldTracked
    ⟨[("a.yaml", "sha256:replicas: 1"), ("b.yaml", "sha256:replicas: 1")]⟩
    ⟨[("hello-kubic", "sha256:kind: Service")]⟩
    ⟨[("nginx", "sha256:v1"), ("nginx.releaseName", "web"),
      ("nginx.valuesPath", "/srv/values.yaml"), ("nginx.namespace", "default")]⟩
    rfl rfl rfl (fun _ _ => rfl) (fun _ _ => rfl) (fun _ _ => rfl)
    (by decide)

/-- Witness for C10: the forced pass on the tracking machine when the overlay apply fails:
the plain files have been applied, the overlay apply is the last call, nothing of the
packaged store is touched. -/
theorem UpdateAll_fail_fast_witness :
    (UpdateAll envOverlayFails true worldTracked).trace =
      [Event.UpdateFile "a.yaml" true "", Event.UpdateFile "b.yaml" true ""] ++
        Event.UpdateKustomize "hello-kubic" false "apply failed" :: [] ∧
    (UpdateAll envOverlayFails true worldTracked).success = false ∧
    (UpdateAll envOverlayFails true worldTracked).message = "apply failed" ∧
    (UpdateAll envOverlayFails true worldTracked).world =
      replay envOverlayFails
        ([Event.UpdateFile "a.yaml" true "", Event.UpdateFile "b.yaml" true ""] ++
          [Event.UpdateKustomize "hello-kubic" false "apply failed"]) worldTracked :=
  ⟨by decide,
    (UpdateAll_fail_fast envOverlayFails true worldTracked
      [Event.UpdateFile "a.yaml" true "", Event.UpdateFile "b.yaml" true ""] []
      (Event.UpdateKustomize "hello-kubic" false "apply failed") "apply failed"
      (by decide) rfl).2⟩

/-! ## Lemmas: failed fingerprint recomputation -/

theorem AbortsOn_nil (f : Event → Option String) (r : Option (Bool × String)) :
    AbortsOn f [] r := by
  intro pre e post msg h
  simp at h

theorem AbortsOn_cons (f : Event → Option String) (e0 : Event) (t : List Event)
    (r : Option (Bool × String)) (h0 : f e0 = none) (h : AbortsOn f t r) :
    AbortsOn f (e0 :: t) r := by
  intro pre e post msg hsplit hfail
  cases pre with
  | nil =>
    simp only [List.nil_append, List.cons.injEq] at hsplit
    rw [← hsplit.1, h0] at hfail
    cases hfail
  | cons a pre =>
    simp only [List.cons_append, List.cons.injEq] at hsplit
    exact h pre e post msg hsplit.2 hfail

theorem AbortsOn_single (f : Event → Option String) (e0 : Event) (m : String)
    (h0 : f e0 = some m) : AbortsOn f [e0] (some (false, m)) := by
  intro pre e post msg hsplit hfail
  cases pre with
  | nil =>
    simp only [List.nil_append, List.cons.injEq] at hsplit
    rw [← hsplit.1, h0] at hfail
    cases hfail
    exact ⟨hsplit.2.symm, rfl⟩
  | cons a pre =>
    simp at hsplit

theorem AbortsOn_append (f : Event → Option String) (t1 t2 : List Event)
    (r : Option (Bool × String)) (h1 : ∀ e ∈ t1, f e = none) (h2 : AbortsOn f t2 r) :
    AbortsOn f (t1 ++ t2) r := by
  induction t1 with
  | nil => simpa using h2
  | cons a t ih =>
    exact AbortsOn_cons f a (t ++ t2) r (h1 a (List.mem_cons_self a t))
      (ih (fun e he => h1 e (List.mem_cons_of_mem a he)))

theorem AbortsOn_of_clean (f : Event → Option String) (t : List Event)
    (r : Option (Bool × String)) (h : ∀ e ∈ t, f e = none) : AbortsOn f t r := by
  have := AbortsOn_append f t [] r h (AbortsOn_nil f r)
  simpa using this

theorem clean_of_AbortsOn_none (f : Event → Option String) (t : List Event)
    (h : AbortsOn f t none) : ∀ e ∈ t, f e = none := by
  intro e he
  rcases List.append_of_mem he with ⟨pre, post, hsplit⟩
  cases hf : f e with
  | none => rfl
  | some msg => exact absurd (h pre e post msg hsplit hf).2 (by simp)

theorem plain_recompute_clean (env : Env) (forced : Bool) (cfg : Ini) (keys : List String)
    (w : World) :
    ∀ e ∈ (UpdateAll.plain env forced cfg keys w).trace, e.recomputeFailure = none := by
  induction keys generalizing w with
  | nil => intro e he; simp [UpdateAll.plain] at he
  | cons k keys ih =>
    intro e he
    unfold UpdateAll.plain at he
    simp only [] at he
    split at he
    · split at he
      · simp only [List.mem_singleton] at he
        subst he; rfl
      · simp only [Pass.after, List.singleton_append, List.mem_cons] at he
        rcases he with he | he
        · subst he; rfl
        · exact ih _ e he
    · split at he
      · split at he
        · simp only [List.mem_cons, List.mem_singleton, List.not_mem_nil, or_false] at he
          rcases he with he | he <;> (subst he; rfl)
        · simp only [Pass.after, List.cons_append, List.nil_append, List.mem_cons] at he
          rcases he with he | he | he
          · subst he; rfl
          · subst he; rfl
          · exact ih _ e he
      · simp only [Pass.after, List.singleton_append, List.mem_cons] at he
        rcases he with he | he
        · subst he; rfl
        · exact ih _ e he

theorem AbortsOn_after (f : Event → Option String) (evs : List Event) (p : Pass)
    (h1 : ∀ e ∈ evs, f e = none) (h2 : AbortsOn f p.trace p.ret) :
    AbortsOn f (p.after evs).trace (p.after evs).ret :=
  AbortsOn_append f evs p.trace p.ret h1 h2

theorem kustomize_recompute (env : Env) (cfg : Ini) (keys : List String) (w : World) :
    AbortsOn Event.recomputeFailure (UpdateAll.kustomize env false cfg keys w).trace
      (UpdateAll.kustomize env false cfg keys w).ret := by
  induction keys generalizing w with
  | nil => exact AbortsOn_nil _ _
  | cons key keys ih =>
    rcases hb : env.command "kustomize"
      ["build", StateDir ++ "/kustomize/" ++ key ++ "/overlay"] w with ⟨bok, out⟩
    cases bok with
    | false =>
      simp only [UpdateAll.kustomize, ExecuteCmd, hb, Bool.false_eq_true, if_false, if_true,
        bne_self_eq_false, Bool.true_bne, Bool.not_false]
      exact AbortsOn_single _ _ out rfl
    | true =>
      rcases hr : env.UpdateKustomize key { w with ext := w.ext + 1 } with ⟨⟨ok, m⟩, w1⟩
      by_cases hh : (Sha256sum_f env out { w with ext := w.ext + 1 }).1 = cfg.get key
      · have heq : ((Sha256sum_f env out { w with ext := w.ext + 1 }).1 != cfg.get key)
            = false := by simp [hh]
        simp only [UpdateAll.kustomize, ExecuteCmd, hb, heq, Bool.false_eq_true, if_false,
          bne_self_eq_false]
        exact AbortsOn_after _ _ _ (by simp [Event.recomputeFailure]) (ih _)
      · have hne : ((Sha256sum_f env out { w with ext := w.ext + 1 }).1 != cfg.get key)
            = true := by simpa using hh
        cases ok with
        | false =>
          simp only [UpdateAll.kustomize, ExecuteCmd, hb, hr, hne, Bool.false_eq_true,
            if_false, if_true, bne_self_eq_false, Bool.true_bne, Bool.not_false]
          exact AbortsOn_of_clean _ _ _ (by simp [Event.recomputeFailure])
        | true =>
          simp only [UpdateAll.kustomize, ExecuteCmd, hb, hr, hne, Bool.false_eq_true,
            if_false, if_true, bne_self_eq_false]
          exact AbortsOn_after _ _ _ (by simp [Event.recomputeFailure]) (ih w1)

theorem helm_recompute (env : Env) (cfg : Ini) (keys : List String) (w : World) :
    AbortsOn Event.recomputeFailure (UpdateAll.helm env false cfg keys w).trace
      (UpdateAll.helm env false cfg keys w).ret := by
  induction keys generalizing w with
  | nil => exact AbortsOn_nil _ _
  | cons c keys ih =>
    rcases hc : env.checkHelmUpdate c (cfg.get (c ++ ".releaseName"))
      (cfg.get (c ++ ".valuesPath")) (cfg.get (c ++ ".namespace")) (cfg.get c) w
      with ⟨⟨needs, cerr⟩, w0⟩
    cases cerr with
    | some m =>
      simp only [UpdateAll.helm, hc, Bool.false_eq_true, if_false]
      exact AbortsOn_single _ _ m rfl
    | none =>
      cases needs with
      | false =>
        simp only [UpdateAll.helm, hc, Bool.false_eq_true, if_false]
        exact AbortsOn_after _ _ _ (by simp [Event.recomputeFailure]) (ih w0)
      | true =>
        rcases hr : env.UpdateHelm c (cfg.get (c ++ ".releaseName"))
          (cfg.get (c ++ ".valuesPath")) (cfg.get (c ++ ".namespace")) w0 with ⟨err, w1⟩
        cases err with
        | some m =>
          simp only [UpdateAll.helm, hc, hr, Bool.false_eq_true, if_false, if_true]
          exact AbortsOn_of_clean _ _ _ (by simp [Event.recomputeFailure])
        | none =>
          simp only [UpdateAll.helm, hc, hr, Bool.false_eq_true, if_false, if_true]
          exact AbortsOn_after _ _ _ (by simp [Event.recomputeFailure]) (ih w1)

theorem UpdateAll_recompute (env : Env) (w : World) :
    AbortsOn Event.recomputeFailure (UpdateAll env false w).trace
      (some ((UpdateAll env false w).success, (UpdateAll env false w).message)) := by
  unfold UpdateAll
  cases hP : Load yamlConf w with
  | error err => exact AbortsOn_nil _ _
  | ok cfg =>
    have cp := plain_recompute_clean env false cfg cfg.KeyStrings w
    simp only []
    cases hpr : (UpdateAll.plain env false cfg cfg.KeyStrings w).ret with
    | some r => exact AbortsOn_of_clean _ _ _ cp
    | none =>
      simp only []
      cases hK : Load kustomizeConf (UpdateAll.plain env false cfg cfg.KeyStrings w).world with
      | error err => exact AbortsOn_of_clean _ _ _ cp
      | ok cfgK =>
        have hk := kustomize_recompute env cfgK cfgK.KeyStrings
          (UpdateAll.plain env false cfg cfg.KeyStrings w).world
        simp only []
        cases hkr : (UpdateAll.kustomize env false cfgK cfgK.KeyStrings
            (UpdateAll.plain env false cfg cfg.KeyStrings w).world).ret with
        | some r =>
          rw [hkr] at hk
          exact AbortsOn_append _ _ _ _ cp hk
        | none =>
          rw [hkr] at hk
          have ck := clean_of_AbortsOn_none _ _ hk
          have cpk : ∀ e ∈ (UpdateAll.plain env false cfg cfg.KeyStrings w).trace ++
              (UpdateAll.kustomize env false cfgK cfgK.KeyStrings
                (UpdateAll.plain env false cfg cfg.KeyStrings w).world).trace,
              e.recomputeFailure = none := by
            intro e he
            rcases List.mem_append.mp he with h | h
            · exact cp e h
            · exact ck e h
          simp only []
          cases hH : Load helmConf (UpdateAll.kustomize env false cfgK cfgK.KeyStrings
              (UpdateAll.plain env false cfg cfg.KeyStrings w).world).world with
          | error err => exact AbortsOn_of_clean _ _ _ cpk
          | ok cfgH =>
            have hh := helm_recompute env cfgH cfgH.KeyStrings
              (UpdateAll.kustomize env false cfgK cfgK.KeyStrings
                (UpdateAll.plain env false cfg cfg.KeyStrings w).world).world
            simp only []
            cases hhr : (UpdateAll.helm env false cfgH cfgH.KeyStrings
                (UpdateAll.kustomize env false cfgK cfgK.KeyStrings
                  (UpdateAll.plain env false cfg cfg.KeyStrings w).world).world).ret with
            | some r =>
              rw [hhr] at hh
              exact AbortsOn_append _ _ _ _ cpk hh
            | none =>
              rw [hhr] at hh
              exact AbortsOn_append _ _ _ _ cpk
                (AbortsOn_of_clean _ _ _ (clean_of_AbortsOn_none _ _ hh))

/-! ## Theorems: fingerprint recomputation, packaged keys, client connection -/

/-- C11, as stated, fails: on a machine whose plain store tracks a file that is gone, the
file hash of the incremental pass fails, and `UpdateAll` nevertheless invokes `UpdateFile`
for that key and returns `(true, "")`. -/
theorem UpdateAll_ignores_hash_error :
    (UpdateAll envOk false worldGone).trace =
      [Event.Sha256sum_f "gone.yaml" "" (some "open gone.yaml: no such file or directory"),
        Event.UpdateFile "gone.yaml" true ""] ∧
    (UpdateAll envOk false worldGone).success = true ∧
    (UpdateAll envOk false worldGone).message = "" := by
  decide

/-- C11, amended: in an incremental pass, when a call in the trace of `UpdateAll` is a
failed overlay build (an external command returning `success = false`) or a failed release
status query (`checkHelmUpdate` returning an error) with message `msg`, that call is the
last one made, so no apply is invoked for that key or any later key, and `UpdateAll`
returns `(false, msg)`. -/
theorem UpdateAll_recompute_fail_fast (env : Env) (w : World) (pre post : List Event)
    (e : Event) (msg : String)
    (hsplit : (UpdateAll env false w).trace = pre ++ e :: post)
    (hfail : e.recomputeFailure = some msg) :
    post = [] ∧
    (UpdateAll env false w).success = false ∧
    (UpdateAll env false w).message = msg := by
  have h1 := UpdateAll_recompute env w pre e post msg hsplit hfail
  have hret := h1.2
  simp only [Option.some.injEq, Prod.mk.injEq] at hret
  exact ⟨h1.1, hret.1, hret.2⟩

/-- Witness for C11: the incremental pass on the tracking machine when the release status
query fails: the query for the first packaged key is the last call. -/
theorem UpdateAll_recompute_fail_fast_witness :
    (UpdateAll envNoHelm false worldTracked).trace =
      [Event.Sha256sum_f "a.yaml" "sha256:replicas: 1" none,
        Event.Sha256sum_f "b.yaml" "sha256:replicas: 2" none,
        Event.UpdateFile "b.yaml" true "",
        Event.ExecuteCmd "kustomize"
          ["build", "/var/lib/kubic-control/kustomize/hello-kubic/overlay"] true "kind: Service",
        Event.Sha256sum_f "kind: Service" ""
          (some "open kind: Service: no such file or directory"),
        Event.UpdateKustomize "hello-kubic" true ""] ++
      Event.checkHelmUpdate "nginx" "web" "/srv/values.yaml" "default" "sha256:v1" false
        (some "release not found") :: [] ∧
    (UpdateAll envNoHelm false worldTracked).success = false ∧
    (UpdateAll envNoHelm false worldTracked).message = "release not found" :=
  ⟨by decide,
    (UpdateAll_recompute_fail_fast envNoHelm worldTracked
      [Event.Sha256sum_f "a.yaml" "sha256:replicas: 1" none,
        Event.Sha256sum_f "b.yaml" "sha256:replicas: 2" none,
        Event.UpdateFile "b.yaml" true "",
        Event.ExecuteCmd "kustomize"
          ["build", "/var/lib/kubic-control/kustomize/hello-kubic/overlay"] true "kind: Service",
        Event.Sha256sum_f "kind: Service" ""
          (some "open kind: Service: no such file or directory"),
        Event.UpdateKustomize "hello-kubic" true ""] []
      (Event.checkHelmUpdate "nginx" "web" "/srv/values.yaml" "default" "sha256:v1" false
        (some "release not found")) "release not found" (by decide) rfl).2⟩

/-- C12: on the tracking machine, whose packaged store holds `nginx`, `nginx.releaseName`,
`nginx.valuesPath` and `nginx.namespace`, the forced pass invokes `UpdateHelm` and the
incremental pass invokes `checkHelmUpdate` with each of the three parameter keys as chart
name. -/
theorem UpdateAll_takes_parameter_keys_for_charts :
    (Event.UpdateHelm "nginx.releaseName" "" "" "" none ∈
      (UpdateAll envOk true worldTracked).trace ∧
    Event.UpdateHelm "nginx.valuesPath" "" "" "" none ∈
      (UpdateAll envOk true worldTracked).trace ∧
    Event.UpdateHelm "nginx.namespace" "" "" "" none ∈
      (UpdateAll envOk true worldTracked).trace) ∧
    (Event.checkHelmUpdate "nginx.releaseName" "" "" "" "web" false none ∈
      (UpdateAll envOk false worldTracked).trace ∧
    Event.checkHelmUpdate "nginx.valuesPath" "" "" "" "/srv/values.yaml" false none ∈
      (UpdateAll envOk false worldTracked).trace ∧
    Event.checkHelmUpdate "nginx.namespace" "" "" "" "default" false none ∈
      (UpdateAll envOk false worldTracked).trace) := by
  decide

/-- C13: on a client machine whose key pair loads and whose CA file is readable but holds
no PEM certificate, `CreateConnection` returns a nil connection together with a nil error,
and `fetchKubeconfig` goes on with the nil connection. -/
theorem CreateConnection_nil_conn_nil_err :
    (CreateConnection clientVars clientEnvBadPEM).conn = none ∧
    (CreateConnection clientVars clientEnvBadPEM).err = none ∧
    (CreateConnection clientVars clientEnvBadPEM).log = ["failed to append ca pki"] ∧
    fetchKubeconfig.start clientVars clientEnvBadPEM = FetchStart.proceeds none := by
  decide
end Kubic
